import Mathlib

/-!
# Package db: per-tenant pools of database connections

A shallow embedding of the Go package `db` (files `config.go`, `db.go`,
`idle.go`, `mgr.go`) together with the properties of the manager that its
specification states.

Conventions of the embedding.

* A `*DB` is the address (a natural number) of a `DB` record in `Heap.pools`;
  `newDB` places the record it builds at the next unused address `Heap.nextDB`.
* A `*sqlx.DB` is `some n` for the handle numbered `n`, or `none` for nil.
* A `*list.Element` is an `Element`: its address and the value stored in it.
  The source never writes to an element after `PushFront`, so the map
  `idleMap` may keep the element itself.
* Go maps are functions into `Option`; a key is present when its image is `some`.
* `time.Time` and `time.Duration` are integers counting nanoseconds. The clock
  reading of `time.Now()` is an argument `now` of the operation that reads it, and
  `Time.Add` is the exact sum.
* A Go `int` or `time.Duration` is an integer, and the arithmetic on it
  (`useCnt++`, `useCnt--`, the jitter of `sleepTime`) takes the exact result
  through `wrapInt64`, the 64-bit two's complement wrap-around (`int` is taken as
  64 bits wide, as on amd64 and arm64).
* What the SQL driver answers is an argument: `Opener` gives the error (if any)
  of `sqlx.Open`, `Closer` the error (if any) of closing a handle.
* A run-time panic (nil dereference) is the result `none`.
* A mutex only serialises calls; the operations are modelled as the atomic steps
  they are under their locks. Concurrent calls of `DB` are interleavings of the
  sections of `Mgr.DB` (`Conc.step`).
* `Heap.newDBCalls`, `Heap.closeCalls`, `Heap.sqlClosed` and `Heap.lifetime` record
  the calls made so far (of `newDB`, of `DB.close`, of a handle's `Close`, and of
  `SetConnMaxLifetime`); the code never reads them.
-/

namespace db

abbrev Error := String
abbrev Time := Int
abbrev Duration := Int

/-- The constant `time.Second`, in nanoseconds. -/
def Second : Duration := 1000000000

/-- The constant `time.Minute`, in nanoseconds. -/
def Minute : Duration := 60 * Second

/-! ## config.go -/

/-- Config contains options for connecting to SQL server. -/
structure Config where
  Driver : String
  User : String
  Pass : String
  HostRW : String
  HostRO : String

/-- Whether the Config has HostRO defined. -/
def Config.hasRO (self : Config) : Bool :=
  self.HostRO != ""

/-- Content of HostRW (true) or HostRO (false) depending on the value of rw. -/
def Config.host (self : Config) (rw : Bool) : String :=
  if rw then self.HostRW else self.HostRO

/-- The part of `fmt.Sprintf` that the package uses: the format is copied and
every verb `%s` is replaced by the next argument. A verb with no argument left
prints as Go does, `%!s(MISSING)`. -/
def sprintfChars : List Char → List String → List Char
  | '%' :: 's' :: fmt, a :: args => a.data ++ sprintfChars fmt args
  | '%' :: 's' :: fmt, [] => "%!s(MISSING)".data ++ sprintfChars fmt []
  | c :: fmt, args => c :: sprintfChars fmt args
  | [], _ => []

/-- The function `fmt.Sprintf` on string arguments. -/
def Sprintf (format : String) (args : List String) : String :=
  String.mk (sprintfChars format.data args)

/-- Formats the given Config into a DSN string which can be passed to the driver. -/
def Config.formatDSN (self : Config) (dbName : String) (rw : Bool) : String :=
  Sprintf "%s:%s@%s/%s" [self.User, self.Pass, self.host rw, dbName]

/-! ## db.go -/

/-- Pool of connections to the database of one appID. -/
structure DB where
  appID : String
  dbRW : Option Nat
  dbRO : Option Nat
  useCnt : Int

/-- The DB objects and the SQL driver, as far as the package touches them. -/
structure Heap where
  pools : Nat → DB
  nextDB : Nat
  nextHandle : Nat
  lifetime : List (Nat × Duration)
  sqlClosed : List Nat
  newDBCalls : List String
  closeCalls : List Nat

/-- Answer of `sqlx.Open driver dsn`: the error, or `none` when it succeeds. -/
abbrev Opener := String → String → Option Error

/-- Answer of `Close` on a handle: the error, or `none` when it succeeds. -/
abbrev Closer := Nat → Option Error

/-- Replace the record at address `p`. -/
def setPool (pools : Nat → DB) (p : Nat) (d : DB) : Nat → DB :=
  fun q => if q = p then d else pools q

/-- Go's `m[k] = v`. -/
def mapSet {α : Type} (m : String → Option α) (k : String) (v : α) : String → Option α :=
  fun x => if x = k then some v else m x

/-- Go's `delete(m, k)`. -/
def mapDelete {α : Type} (m : String → Option α) (k : String) : String → Option α :=
  fun x => if x = k then none else m x

/-- The call `sqlx.Open(driver, dsn)`: a new handle, or the driver's error. -/
def sqlxOpen (opener : Opener) (h : Heap) (driver dsn : String) : Heap × Except Error Nat :=
  match opener driver dsn with
  | some err => (h, .error err)
  | none => ({ h with nextHandle := h.nextHandle + 1 }, .ok h.nextHandle)

/-- Configures a pool of DB connections before using it:
`SetConnMaxLifetime(3 * time.Minute)`. -/
def configureDB (h : Heap) (handle : Nat) : Heap :=
  { h with lifetime := h.lifetime ++ [(handle, 3 * Minute)] }

/-- Creates the pool of DB connections to the database named appID. -/
def newDB (opener : Opener) (h : Heap) (appID : String) (dbConfig : Config) :
    Heap × Except Error Nat :=
  let h := { h with newDBCalls := h.newDBCalls ++ [appID] }
  match sqlxOpen opener h dbConfig.Driver (dbConfig.formatDSN appID true) with
  | (h, .error err) => (h, .error err)
  | (h, .ok dbRW) =>
    let db := h.nextDB
    let h := { h with
      pools := setPool h.pools db { appID := appID, dbRW := some dbRW, dbRO := none, useCnt := 0 }
      nextDB := h.nextDB + 1 }
    if dbConfig.hasRO then
      match sqlxOpen opener h dbConfig.Driver (dbConfig.formatDSN appID false) with
      | (h, .error err) => ({ h with sqlClosed := h.sqlClosed ++ [dbRW] }, .error err)
      | (h, .ok dbRO) =>
        let h := { h with pools := setPool h.pools db { h.pools db with dbRO := some dbRO } }
        let h := configureDB h dbRO
        let h := configureDB h dbRW
        (h, .ok db)
    else
      let h := configureDB h dbRW
      (h, .ok db)

/-- The value of a Go `int` or `time.Duration` after an arithmetic operation whose
exact result is `x`: the 64-bit two's complement wrap-around (`int` is taken as 64
bits wide, as on amd64 and arm64). -/
def wrapInt64 (x : Int) : Int :=
  (x + 2 ^ 63) % 2 ^ 64 - 2 ^ 63

/-- Application ID for which this DB was created. -/
def DB.AppID (self : DB) : String := self.appID

/-- One more active usage of this DB. -/
def DB.use (self : DB) : DB := { self with useCnt := wrapInt64 (self.useCnt + 1) }

/-- Whether someone uses this DB at this moment. -/
def DB.inUse (self : DB) : Bool := decide (self.useCnt > 0)

/-- One active usage less. -/
def DB.release (self : DB) : DB := { self with useCnt := wrapInt64 (self.useCnt - 1) }

/-- Pool of connections to the read-write server. -/
def DB.RW (self : DB) : Option Nat := self.dbRW

/-- Pool of connections to the read-only replica, if any. -/
def DB.RO (self : DB) : Option Nat := self.dbRO

/-- Closes all pools of the DB. The result is the DB afterwards, the handles on
which `Close` was called, and the error returned; `none` is the nil dereference of
`self.RW().Close()` when the RW handle is nil. -/
def DB.close (closer : Closer) (self : DB) : Option (DB × List Nat × Option Error) :=
  let afterRO : Except (List Nat × Error) (DB × List Nat) :=
    match self.RO with
    | some ro =>
      match closer ro with
      | some err => .error ([ro], err)
      | none => .ok ({ self with dbRO := none }, [ro])
    | none => .ok (self, [])
  match afterRO with
  | .error (hs, err) => some (self, hs, some err)
  | .ok (self, hs) =>
    match self.RW with
    | none => none
    | some rw =>
      match closer rw with
      | some err => some (self, hs ++ [rw], some err)
      | none => some ({ self with dbRW := none }, hs ++ [rw], none)

/-! ## idle.go -/

/-- Default interval between expiration loops. -/
def defExpirationInterval : Duration := 45 * Second

/-- Default jitter for the interval, in seconds. -/
def defExpirationJitter : Int := 30

/-- Default Time-To-Life for idle entries. -/
def defMaxTTL : Duration := 5 * Minute

/-- Value of a list element: the DB and its expiration time. -/
structure idleDB where
  db : Nat
  expireAt : Time
deriving DecidableEq

/-- An element of `container/list`: its address and its value. -/
structure Element where
  addr : Nat
  Value : idleDB
deriving DecidableEq

/-- Manager of idle DBs. `elems` counts the elements created so far by
`PushFront`; the next element gets this address. -/
structure idleMgr where
  idleList : List Element
  idleMap : String → Option Element
  expInterval : Duration
  expJitter : Int
  maxTTL : Duration
  elems : Nat

/-- Creates the manager of idle DBs. The goroutine it launches runs `expire`
from time to time. -/
def newIdleMgr : idleMgr :=
  { idleList := []
    idleMap := fun _ => none
    expInterval := defExpirationInterval
    expJitter := defExpirationJitter
    maxTTL := defMaxTTL
    elems := 0 }

/-- The call `l.Remove(elem)`: takes the element with this address out of the list. -/
def listRemove (l : List Element) (elem : Element) : List Element :=
  l.filter (fun e => e.addr != elem.addr)

/-- Whether idleMgr contains a DB for appID. -/
def idleMgr.onIdle (self : idleMgr) (appID : String) : Bool :=
  (self.idleMap appID).isSome

/-- Returns the DB for appID if idleMgr contains it, or nil. It removes the DB from
idle state and forgets about it. -/
def idleMgr.AppDB (self : idleMgr) (appID : String) : idleMgr × Option Nat :=
  match self.idleMap appID with
  | some _ =>
    match self.idleMap appID with
    | some elem =>
      let idle := elem.Value
      ({ self with
          idleMap := mapDelete self.idleMap appID
          idleList := listRemove self.idleList elem }, some idle.db)
    | none => (self, none)
  | none => (self, none)

/-- Adds db into idleMgr and marks it for expiration after maxTTL. -/
def idleMgr.idleAppDB (self : idleMgr) (now : Time) (pools : Nat → DB) (db : Nat) : idleMgr :=
  let appID := (pools db).AppID
  let ttl := now + self.maxTTL
  match self.idleMap appID with
  | some elem =>
    let idle := elem.Value
    let _idle := { idle with expireAt := ttl }
    self
  | none =>
    let elem : Element := { addr := self.elems, Value := { db := db, expireAt := ttl } }
    { self with
        idleList := elem :: self.idleList
        idleMap := mapSet self.idleMap appID elem
        elems := self.elems + 1 }

/-- The loop of `expire`. `back` is the list read from its back (`Back()` is the
head of `back`, and removing that element leaves the tail). The result is the
heap, what is left of the list (read from its back) and the map; `none` is a
panic inside `db.close()`. -/
def expireLoop (closer : Closer) (now : Time) :
    List Element → Heap → (String → Option Element) →
      Option (Heap × List Element × (String → Option Element))
  | [], h, idleMap => some (h, [], idleMap)
  | elem :: back, h, idleMap =>
    let idle := elem.Value
    if idle.expireAt > now then
      some (h, elem :: back, idleMap)
    else
      let db := idle.db
      let idleMap := mapDelete idleMap (h.pools db).AppID
      match (h.pools db).close closer with
      | none => none
      | some (d, hs, _) =>
        let h := { h with
          pools := setPool h.pools db d
          sqlClosed := h.sqlClosed ++ hs
          closeCalls := h.closeCalls ++ [db] }
        expireLoop closer now back h idleMap

/-- Closes and removes all DBs whose expireAt is not after now. -/
def idleMgr.expire (self : idleMgr) (closer : Closer) (now : Time) (h : Heap) :
    Option (Heap × idleMgr) :=
  match expireLoop closer now self.idleList.reverse h self.idleMap with
  | none => none
  | some (h, back, idleMap) =>
    some (h, { self with idleList := back.reverse, idleMap := idleMap })

/-! ## mgr.go -/

/-- The manager. -/
structure Mgr where
  dbConfig : Config
  appDB : String → Option Nat
  idle : idleMgr

/-- Creates the manager. -/
def NewMgr (dbConfig : Config) : Mgr :=
  { dbConfig := dbConfig
    appDB := fun _ => none
    idle := newIdleMgr }

/-- Returns the DB from idleMgr for the appID, or a new one when the appID is not
registered there, and installs it in appDB. -/
def Mgr.maybeIdleDB (self : Mgr) (opener : Opener) (h : Heap) (appID : String) :
    Heap × Mgr × Except Error Nat :=
  match self.idle.AppDB appID with
  | (idle, some db) =>
    (h, { self with idle := idle, appDB := mapSet self.appDB appID db }, .ok db)
  | (idle, none) =>
    match newDB opener h appID self.dbConfig with
    | (h, .error err) => (h, { self with idle := idle }, .error err)
    | (h, .ok dbn) =>
      (h, { self with idle := idle, appDB := mapSet self.appDB appID dbn }, .ok dbn)

/-- Returns the DB pools for this appID, or the error. -/
def Mgr.DB (self : Mgr) (opener : Opener) (h : Heap) (appID : String) :
    Heap × Mgr × Except Error Nat :=
  match hq : self.appDB appID with
  | some db =>
    ({ h with pools := setPool h.pools db (h.pools db).use }, self, .ok db)
  | none =>
    match hm : self.maybeIdleDB opener h appID with
    | (h1, self1, .error err) => (h1, self1, .error err)
    | (h1, self1, .ok _) => Mgr.DB self1 opener h1 appID
termination_by (if (self.appDB appID).isSome then 0 else 1)
decreasing_by
  have h2 : (self1.appDB appID).isSome = true := by
    unfold Mgr.maybeIdleDB at hm
    split at hm
    · cases hm
      simp [mapSet]
    · split at hm
      · cases hm
      · cases hm
        simp [mapSet]
  simp [h2, hq]

/-- Returns db back into the manager. -/
def Mgr.ReleaseDB (self : Mgr) (now : Time) (h : Heap) (db : Nat) : Heap × Mgr :=
  let h := { h with pools := setPool h.pools db (h.pools db).release }
  if !(h.pools db).inUse then
    let idle := self.idle.idleAppDB now h.pools db
    (h, { self with idle := idle, appDB := mapDelete self.appDB (h.pools db).AppID })
  else
    (h, self)

/-- The results of `n` successive calls `DB(appID)` with nothing in between. -/
def Mgr.DBs (self : Mgr) (opener : Opener) (h : Heap) (appID : String) :
    Nat → Heap × Mgr × List (Except Error Nat)
  | 0 => (h, self, [])
  | n + 1 =>
    let r := self.DB opener h appID
    let rs := Mgr.DBs r.2.1 opener r.1 appID n
    (rs.1, rs.2.1, r.2.2 :: rs.2.2)

/-! ## Runs of the manager -/

/-- One call on the manager: `DB`, `ReleaseDB` or the sweep `expire`, with any
arguments and any answers of the driver and the clock. A call that panics has no
successor. -/
inductive Step : Heap × Mgr → Heap × Mgr → Prop
  | DB (h : Heap) (m : Mgr) (opener : Opener) (appID : String) :
      Step (h, m) ((m.DB opener h appID).1, (m.DB opener h appID).2.1)
  | ReleaseDB (h : Heap) (m : Mgr) (now : Time) (db : Nat) :
      Step (h, m) (m.ReleaseDB now h db)
  | expire (h : Heap) (m : Mgr) (closer : Closer) (now : Time) (h1 : Heap) (idle1 : idleMgr) :
      m.idle.expire closer now h = some (h1, idle1) →
      Step (h, m) (h1, { m with idle := idle1 })

/-- The states reachable from `NewMgr`, whatever DB objects exist beside it. -/
inductive Reachable (dbConfig : Config) : Heap × Mgr → Prop
  | NewMgr (h : Heap) : Reachable dbConfig (h, NewMgr dbConfig)
  | step {s s1 : Heap × Mgr} : Reachable dbConfig s → Step s s1 → Reachable dbConfig s1

/-- The list is ordered from freshest (front) to oldest (back). -/
def idleMgr.Ordered (self : idleMgr) : Prop :=
  self.idleList.Pairwise (fun a b => b.Value.expireAt ≤ a.Value.expireAt)

/-- The map and the list of the registry describe the same entries: every element
of the list is the image of the appID of its pool, every image is an element of
the list under that appID, and the elements are distinct objects created by
`PushFront`. -/
def idleMgr.WellFormed (self : idleMgr) (pools : Nat → DB) : Prop :=
  (∀ e ∈ self.idleList, self.idleMap (pools e.Value.db).AppID = some e) ∧
  (∀ t e, self.idleMap t = some e → e ∈ self.idleList ∧ (pools e.Value.db).AppID = t) ∧
  (self.idleList.map Element.addr).Nodup ∧
  (∀ e ∈ self.idleList, e.addr < self.elems)

/-- A heap with no DB object in use yet. -/
def emptyHeap : Heap :=
  { pools := fun _ => { appID := "", dbRW := none, dbRO := none, useCnt := 0 }
    nextDB := 0
    nextHandle := 0
    lifetime := []
    sqlClosed := []
    newDBCalls := []
    closeCalls := [] }

/-- The configuration of the tests of the manager. -/
def testConfig : Config :=
  { Driver := "mysql", User := "", Pass := "", HostRW := "tcp(127.0.0.1)", HostRO := "" }

/-- A driver that opens every pool. -/
def openAll : Opener := fun _ _ => none

/-- A driver that refuses every pool. -/
def openNone : Opener := fun _ _ => some "unknown driver"

/-- A driver that closes every handle without error. -/
def closeAll : Closer := fun _ => none

/-- The state after DB("demoa") on the new manager. -/
def acquiredRun : Heap × Mgr :=
  (((NewMgr testConfig).DB openAll emptyHeap "demoa").1,
    ((NewMgr testConfig).DB openAll emptyHeap "demoa").2.1)

/-- The state after DB("demoa") and the release, at time 0, of the pool returned. -/
def releasedRun : Heap × Mgr :=
  acquiredRun.2.ReleaseDB 0 acquiredRun.1 0

/-- A heap whose only DB object is the open pool 0 of "demoa", with counter `c`. -/
def countedHeap (c : Int) : Heap :=
  { emptyHeap with
    pools := setPool emptyHeap.pools 0
      { appID := "demoa", dbRW := some 0, dbRO := none, useCnt := c }
    nextDB := 1
    nextHandle := 1 }

/-- A manager that has pool 0 of "demoa" in appDB. -/
def activeMgr : Mgr :=
  { NewMgr testConfig with appDB := mapSet (fun _ => none) "demoa" 0 }

/-- No appID is a key of both appDB and the idle registry. -/
def Mgr.Disjoint (self : Mgr) : Prop :=
  ∀ t, self.appDB t = none ∨ self.idle.idleMap t = none


/-- Two open pools, of tenants "demoa" and "demob". -/
def demoHeap : Heap :=
  { emptyHeap with
    pools := setPool (setPool emptyHeap.pools
      0 { appID := "demoa", dbRW := some 0, dbRO := none, useCnt := 0 })
      1 { appID := "demob", dbRW := some 1, dbRO := none, useCnt := 0 }
    nextDB := 2
    nextHandle := 2 }

/-- A manager whose registry holds pool 0 of "demoa", idle since time 0. -/
def idleDemoMgr : Mgr :=
  { NewMgr testConfig with idle := newIdleMgr.idleAppDB 0 demoHeap.pools 0 }

/-- The registry after pool 0 of "demoa" went idle at time 0 and pool 1 of "demob"
at time 500: "demob" is at the front of the list, "demoa" at the back. -/
def staleRegistry : idleMgr :=
  (newIdleMgr.idleAppDB 0 demoHeap.pools 0).idleAppDB 500 demoHeap.pools 1

/-- Three pools, of tenants "a", "b" and "c"; the first two are open, the third
has been closed before. -/
def sweepHeap : Heap :=
  { emptyHeap with
    pools := setPool (setPool (setPool emptyHeap.pools
      0 { appID := "a", dbRW := some 0, dbRO := none, useCnt := 0 })
      1 { appID := "b", dbRW := some 1, dbRO := some 3, useCnt := 0 })
      2 { appID := "c", dbRW := none, dbRO := none, useCnt := 0 }
    nextDB := 3
    nextHandle := 4 }

/-- The registry after the three pools went idle at times 10, 20 and 30. -/
def sweepRegistry : idleMgr :=
  ((newIdleMgr.idleAppDB 10 sweepHeap.pools 0).idleAppDB 20 sweepHeap.pools 1).idleAppDB 30
    sweepHeap.pools 2

/-- The steps of TestExpire up to its second sweep, with the default maxTTL: the
pool of "demoa" goes idle at time 0, the sweep at time maxTTL closes and removes
it, and the same DB goes idle again at that time. The result is the DB objects and
the registry before the second sweep. -/
def reidledClosed : Option (Heap × idleMgr) :=
  ((newIdleMgr.idleAppDB 0 (countedHeap 0).pools 0).expire closeAll defMaxTTL
      (countedHeap 0)).map
    (fun r => (r.1, r.2.idleAppDB defMaxTTL r.1.pools 0))

/-- One more holder of pool `p`. -/
def bump (held : Nat → Nat) (p : Nat) : Nat → Nat :=
  fun q => if q = p then held q + 1 else held q

/-- One holder less of pool `p`. -/
def unbump (held : Nat → Nat) (p : Nat) : Nat → Nat :=
  fun q => if q = p then held q - 1 else held q

/-- Runs of the manager in which callers keep to the contract of `ReleaseDB`:
`Serving cap dbConfig s held` says that `s` is reached from `NewMgr` by calls of
DB, ReleaseDB and expire, where `held p` counts the successful DB calls that
returned pool `p` and have not been matched by a ReleaseDB yet, ReleaseDB is only
called on a pool with such a call outstanding, and no pool ever has more than `cap`
such calls outstanding. -/
inductive Serving (cap : Nat) (dbConfig : Config) : Heap × Mgr → (Nat → Nat) → Prop
  | NewMgr (h : Heap) : Serving cap dbConfig (h, NewMgr dbConfig) (fun _ => 0)
  | DB_ok {h : Heap} {m : Mgr} {held : Nat → Nat} (opener : Opener) (appID : String) (p : Nat) :
      Serving cap dbConfig (h, m) held → (m.DB opener h appID).2.2 = .ok p → held p < cap →
      Serving cap dbConfig ((m.DB opener h appID).1, (m.DB opener h appID).2.1) (bump held p)
  | DB_error {h : Heap} {m : Mgr} {held : Nat → Nat} (opener : Opener) (appID : String)
      (err : Error) :
      Serving cap dbConfig (h, m) held → (m.DB opener h appID).2.2 = .error err →
      Serving cap dbConfig ((m.DB opener h appID).1, (m.DB opener h appID).2.1) held
  | ReleaseDB {h : Heap} {m : Mgr} {held : Nat → Nat} (now : Time) (p : Nat) :
      Serving cap dbConfig (h, m) held → 0 < held p →
      Serving cap dbConfig (m.ReleaseDB now h p) (unbump held p)
  | expire {h : Heap} {m : Mgr} {held : Nat → Nat} (closer : Closer) (now : Time)
      (h1 : Heap) (idle1 : idleMgr) :
      Serving cap dbConfig (h, m) held → m.idle.expire closer now h = some (h1, idle1) →
      Serving cap dbConfig (h1, { m with idle := idle1 }) held

/-- What holds of the manager between calls when callers keep to the contract and
no pool has more than 2^63 holders: the registry is well formed; a pool in appDB is
filed under its own appID, is open and its counter is the 64-bit value of the
number of its holders; a pool in the registry is open, with counter zero and no
holder; no appID is in both; a pool with a holder is in appDB. -/
def Mgr.Inv (self : Mgr) (h : Heap) (held : Nat → Nat) : Prop :=
  self.idle.WellFormed h.pools ∧
  (∀ t p, self.appDB t = some p →
    (h.pools p).appID = t ∧ p < h.nextDB ∧ (h.pools p).dbRW ≠ none ∧
      (h.pools p).useCnt = wrapInt64 (held p)) ∧
  (∀ e ∈ self.idle.idleList,
    e.Value.db < h.nextDB ∧ (h.pools e.Value.db).dbRW ≠ none ∧
      (h.pools e.Value.db).useCnt = 0 ∧ held e.Value.db = 0) ∧
  self.Disjoint ∧
  (∀ p, 0 < held p → self.appDB (h.pools p).appID = some p) ∧
  (∀ p, held p ≤ 2 ^ 63)

/-- The state after `n` successive calls DB("demoa") on the new manager. -/
def crowdedRun (n : Nat) : Heap × Mgr :=
  (((NewMgr testConfig).DBs openAll emptyHeap "demoa" n).1,
    ((NewMgr testConfig).DBs openAll emptyHeap "demoa" n).2.1)

/-- The state after those calls and one release, at time 0, of the pool returned. -/
def overflowRun (n : Nat) : Heap × Mgr :=
  (crowdedRun n).2.ReleaseDB 0 (crowdedRun n).1 0

/-! ## idle.go: the sleep between two sweeps -/

/-- The call `rand.Intn(n)`: a panic when `n <= 0`, otherwise a number in the
half-open interval from 0 to `n`. `rnd` is what the generator produces; reduced
modulo `n` it ranges over exactly the values `rand.Intn(n)` can return. -/
def randIntn (n : Int) (rnd : Nat) : Option Int :=
  if n ≤ 0 then none else some ((rnd : Int) % n)

/-- Current sleep time before calling the expire method:
`time.Duration(rand.Intn(self.expJitter) * int(time.Second))` added to
`self.expInterval`. -/
def idleMgr.sleepTime (self : idleMgr) (rnd : Nat) : Option Duration :=
  match randIntn self.expJitter rnd with
  | none => none
  | some r =>
    let jitter := wrapInt64 (r * Second)
    some (wrapInt64 (self.expInterval + jitter))

/-! ## Runs of the idle registry -/

/-- The registries reached from an empty one by calls of idleAppDB, AppDB and
expire. `IdleRun s t` says that `s` is such a registry (with the DB objects beside
it) and that `t` is the last reading of the clock: each call that reads the clock
reads a time not before the previous reading. Between two calls the DB objects may
change in any way. No step assigns maxTTL. -/
inductive IdleRun : Heap × idleMgr → Time → Prop
  | empty (h : Heap) (m : idleMgr) (t : Time) :
      m.idleList = [] → (∀ appID, m.idleMap appID = none) → IdleRun (h, m) t
  | heap {h : Heap} {m : idleMgr} {t : Time} (h1 : Heap) :
      IdleRun (h, m) t → IdleRun (h1, m) t
  | idleAppDB {h : Heap} {m : idleMgr} {t : Time} (now : Time) (db : Nat) :
      IdleRun (h, m) t → t ≤ now → IdleRun (h, m.idleAppDB now h.pools db) now
  | AppDB {h : Heap} {m : idleMgr} {t : Time} (appID : String) :
      IdleRun (h, m) t → IdleRun (h, (m.AppDB appID).1) t
  | expire {h : Heap} {m : idleMgr} {t : Time} (closer : Closer) (now : Time)
      (h1 : Heap) (m1 : idleMgr) :
      IdleRun (h, m) t → t ≤ now → m.expire closer now h = some (h1, m1) →
      IdleRun (h1, m1) now

/-- A configuration with a replica. -/
def replicaConfig : Config :=
  { Driver := "mysql", User := "user", Pass := "password", HostRW := "tcp(db1)",
    HostRO := "tcp(db2)" }

/-- A driver that opens the read-write server and refuses the replica of
`replicaConfig` for the database "demoa". -/
def openMainOnly : Opener :=
  fun _ dsn => if dsn = "user:password@tcp(db2)/demoa" then some "replica refused" else none

/-- A pool of "demoa" with a replica, as newDB builds it. -/
def replicaDB : DB :=
  { appID := "demoa", dbRW := some 0, dbRO := some 1, useCnt := 0 }

/-- A registry with the default interval whose jitter is 10^10 seconds. -/
def wideJitter : idleMgr :=
  { newIdleMgr with expJitter := 10000000000 }

/-- What holds of the registry between calls: the list is ordered from freshest to
oldest, and no entry expires later than maxTTL after the last reading `t` of the
clock. -/
def idleMgr.Fresh (self : idleMgr) (t : Time) : Prop :=
  self.Ordered ∧ ∀ e ∈ self.idleList, e.Value.expireAt ≤ t + self.maxTTL

/-! ## mgr.go: concurrent calls of DB -/

/-- Where a goroutine that called `DB(appID)` stands:
`lookup`: at the start of DB, before the read lock of the fast path is taken;
`missed`: the fast path found nothing and the read lock is released, `sg.Do` not
yet called;
`flying`: inside `sg.Do` as the caller that executes the function, `maybeIdleDB`
not yet run;
`waiting`: inside `sg.Do`, waiting for the result of the caller that executes;
`returned`: DB has returned this pool; `failed`: DB has returned this error. -/
inductive Caller where
  | lookup (appID : String)
  | missed (appID : String)
  | flying (appID : String)
  | waiting (appID : String)
  | returned (db : Nat)
  | failed (err : Error)
deriving DecidableEq

/-- The caller executes the function of `sg.Do` for this key. -/
def Caller.isFlying (appID : String) : Caller → Bool
  | .flying t => t == appID
  | _ => false

/-- The caller is inside `sg.Do` for this key, executing or waiting. -/
def Caller.inFlight (appID : String) : Caller → Bool
  | .flying t => t == appID
  | .waiting t => t == appID
  | _ => false

/-- The manager, the DB objects and the goroutines that are inside `DB`. -/
structure Conc where
  heap : Heap
  mgr : Mgr
  callers : List Caller

/-- One step of goroutine `i`, the steps being the sections of `Mgr.DB` between
which another goroutine may run.
From `lookup`: the fast path under the read lock; a hit increments the counter and
returns the pool, a miss releases the lock.
From `missed`: the call of `sg.Do`, which joins the call in flight for the key if
there is one and starts one otherwise.
From `flying`: the function of `sg.Do`, `maybeIdleDB`, run in one piece; its result
goes to the executing caller and to those waiting for it. Each of them returns the
error, or calls `self.DB(appID)` again.
A waiting caller and a caller that has returned do nothing. -/
def Conc.step (opener : Opener) (s : Conc) (i : Nat) : Conc :=
  match s.callers.get? i with
  | some (.lookup appID) =>
    match s.mgr.appDB appID with
    | some db =>
      { s with
        heap := { s.heap with pools := setPool s.heap.pools db (s.heap.pools db).use }
        callers := s.callers.set i (.returned db) }
    | none => { s with callers := s.callers.set i (.missed appID) }
  | some (.missed appID) =>
    if s.callers.any (Caller.isFlying appID) then
      { s with callers := s.callers.set i (.waiting appID) }
    else
      { s with callers := s.callers.set i (.flying appID) }
  | some (.flying appID) =>
    match s.mgr.maybeIdleDB opener s.heap appID with
    | (h, m, .error err) =>
      { heap := h, mgr := m,
        callers := s.callers.map
          (fun c => if c.inFlight appID then Caller.failed err else c) }
    | (h, m, .ok _) =>
      { heap := h, mgr := m,
        callers := s.callers.map
          (fun c => if c.inFlight appID then Caller.lookup appID else c) }
  | _ => s

/-- The steps of the goroutines in the order of `schedule`. -/
def Conc.run (opener : Opener) (s : Conc) (schedule : List Nat) : Conc :=
  schedule.foldl (Conc.step opener) s

/-- Two goroutines call DB("demoa") on the new manager. -/
def twoCallers : Conc :=
  { heap := emptyHeap
    mgr := NewMgr testConfig
    callers := [.lookup "demoa", .lookup "demoa"] }

/-! ## Lemmas on the operations -/

theorem wrapInt64_of_fits {x : Int} (hlo : -2 ^ 63 ≤ x) (hhi : x ≤ 2 ^ 63 - 1) :
    wrapInt64 x = x := by
  unfold wrapInt64
  omega

theorem wrapInt64_add_wrapInt64 (a b : Int) :
    wrapInt64 (a + wrapInt64 b) = wrapInt64 (a + b) := by
  unfold wrapInt64
  omega

theorem wrapInt64_wrapInt64_add (a b : Int) :
    wrapInt64 (wrapInt64 a + b) = wrapInt64 (a + b) := by
  unfold wrapInt64
  omega

theorem wrapInt64_wrapInt64_sub (a b : Int) :
    wrapInt64 (wrapInt64 a - b) = wrapInt64 (a - b) := by
  unfold wrapInt64
  omega

theorem wrapInt64_fits (x : Int) : -2 ^ 63 ≤ wrapInt64 x ∧ wrapInt64 x ≤ 2 ^ 63 - 1 := by
  unfold wrapInt64
  omega

theorem newDB_calls (opener : Opener) (h : Heap) (appID : String) (c : Config) :
    (newDB opener h appID c).1.newDBCalls = h.newDBCalls ++ [appID] := by
  unfold newDB sqlxOpen configureDB
  cases opener c.Driver (c.formatDSN appID true) <;> simp
  cases c.hasRO <;> simp
  cases opener c.Driver (c.formatDSN appID false) <;> simp

theorem newDB_ok {opener : Opener} {h : Heap} {appID : String} {c : Config} {p : Nat}
    (hp : (newDB opener h appID c).2 = .ok p) :
    p = h.nextDB ∧ ((newDB opener h appID c).1.pools p).appID = appID ∧
    ((newDB opener h appID c).1.pools p).useCnt = 0 ∧
    ((newDB opener h appID c).1.pools p).dbRW ≠ none ∧
    (newDB opener h appID c).1.nextDB = h.nextDB + 1 ∧
    (newDB opener h appID c).1.closeCalls = h.closeCalls ∧
    ∀ q, q ≠ p → (newDB opener h appID c).1.pools q = h.pools q := by
  unfold newDB sqlxOpen configureDB at *
  cases h1 : opener c.Driver (c.formatDSN appID true) <;> simp [h1] at hp ⊢
  cases h2 : c.hasRO <;> simp [h2] at hp ⊢
  · subst hp
    simp [setPool]
    intro q hq
    simp [hq]
  · cases h3 : opener c.Driver (c.formatDSN appID false) <;> simp [h3] at hp ⊢
    subst hp
    simp [setPool]
    intro q hq
    simp [hq]

theorem maybeIdleDB_ok_appDB {self : Mgr} {opener : Opener} {h : Heap} {appID : String}
    {h1 : Heap} {self1 : Mgr} {p : Nat}
    (hm : self.maybeIdleDB opener h appID = (h1, self1, .ok p)) :
    self1.appDB appID = some p := by
  unfold Mgr.maybeIdleDB at hm
  split at hm
  · cases hm
    simp [mapSet]
  · split at hm
    · cases hm
    · cases hm
      simp [mapSet]

theorem DB_hit {self : Mgr} {appID : String} {p : Nat} (opener : Opener) (h : Heap)
    (hq : self.appDB appID = some p) :
    self.DB opener h appID =
      ({ h with pools := setPool h.pools p (h.pools p).use }, self, .ok p) := by
  rw [Mgr.DB]
  split
  · rename_i db hdb
    rw [hq] at hdb
    cases hdb
    rfl
  · rename_i hdb
    rw [hq] at hdb
    cases hdb

theorem DB_miss_err {self : Mgr} {appID : String} {opener : Opener} {h h1 : Heap}
    {self1 : Mgr} {err : Error} (hq : self.appDB appID = none)
    (hm : self.maybeIdleDB opener h appID = (h1, self1, .error err)) :
    self.DB opener h appID = (h1, self1, .error err) := by
  rw [Mgr.DB]
  split
  · rename_i db hdb
    rw [hq] at hdb
    cases hdb
  · split
    · rename_i h2 s2 e2 hm2
      rw [hm] at hm2
      cases hm2
      rfl
    · rename_i h2 s2 e2 hm2
      rw [hm] at hm2
      cases hm2

theorem DB_miss_ok {self : Mgr} {appID : String} {opener : Opener} {h h1 : Heap}
    {self1 : Mgr} {p : Nat} (hq : self.appDB appID = none)
    (hm : self.maybeIdleDB opener h appID = (h1, self1, .ok p)) :
    self.DB opener h appID =
      ({ h1 with pools := setPool h1.pools p (h1.pools p).use }, self1, .ok p) := by
  rw [Mgr.DB]
  split
  · rename_i db hdb
    rw [hq] at hdb
    cases hdb
  · split
    · rename_i h2 s2 e2 hm2
      rw [hm] at hm2
      cases hm2
    · rename_i h2 s2 e2 hm2
      rw [hm] at hm2
      cases hm2
      exact DB_hit opener h1 (maybeIdleDB_ok_appDB hm)

theorem AppDB_present {self : idleMgr} {appID : String} {e : Element}
    (he : self.idleMap appID = some e) :
    self.AppDB appID =
      ({ self with
          idleMap := mapDelete self.idleMap appID
          idleList := listRemove self.idleList e }, some e.Value.db) := by
  simp [idleMgr.AppDB, he]

theorem AppDB_absent {self : idleMgr} {appID : String}
    (he : self.idleMap appID = none) : self.AppDB appID = (self, none) := by
  simp [idleMgr.AppDB, he]

theorem maybeIdleDB_present {self : Mgr} {appID : String} {e : Element}
    (opener : Opener) (h : Heap) (he : self.idle.idleMap appID = some e) :
    self.maybeIdleDB opener h appID =
      (h, { self with
              idle := { self.idle with
                idleMap := mapDelete self.idle.idleMap appID
                idleList := listRemove self.idle.idleList e }
              appDB := mapSet self.appDB appID e.Value.db }, .ok e.Value.db) := by
  simp [Mgr.maybeIdleDB, AppDB_present he]

theorem maybeIdleDB_absent_err {self : Mgr} {appID : String} {opener : Opener} {h : Heap}
    {err : Error} (he : self.idle.idleMap appID = none)
    (hn : (newDB opener h appID self.dbConfig).2 = .error err) :
    self.maybeIdleDB opener h appID =
      ((newDB opener h appID self.dbConfig).1, self, .error err) := by
  simp only [Mgr.maybeIdleDB, AppDB_absent he]
  split
  · rename_i h2 e2 hn2
    rw [hn2] at hn
    cases hn
    rw [hn2]
  · rename_i h2 e2 hn2
    rw [hn2] at hn
    cases hn

theorem maybeIdleDB_absent_ok {self : Mgr} {appID : String} {opener : Opener} {h : Heap}
    {p : Nat} (he : self.idle.idleMap appID = none)
    (hn : (newDB opener h appID self.dbConfig).2 = .ok p) :
    self.maybeIdleDB opener h appID =
      ((newDB opener h appID self.dbConfig).1,
        { self with appDB := mapSet self.appDB appID p }, .ok p) := by
  simp only [Mgr.maybeIdleDB, AppDB_absent he]
  split
  · rename_i h2 e2 hn2
    rw [hn2] at hn
    cases hn
  · rename_i h2 e2 hn2
    rw [hn2] at hn
    cases hn
    rw [hn2]

/-! ## Config -/

/-- C10: for every Config and database name, formatDSN(dbName, rw) is
User ":" Pass "@" host "/" dbName, with host HostRW when rw is true and HostRO
when it is false; the two DSNs of the test come out as the spec lists them. -/
theorem formatDSN_spec :
    (∀ (c : Config) (dbName : String) (rw : Bool),
      c.formatDSN dbName rw =
        c.User ++ ":" ++ c.Pass ++ "@" ++ (if rw then c.HostRW else c.HostRO) ++ "/" ++ dbName) ∧
    ({ Driver := "", User := "user", Pass := "password", HostRW := "tcp(db1)",
       HostRO := "tcp(db2)" } : Config).formatDSN "test" true = "user:password@tcp(db1)/test" ∧
    ({ Driver := "", User := "user", Pass := "password", HostRW := "tcp(db1)",
       HostRO := "tcp(db2)" } : Config).formatDSN "test" false = "user:password@tcp(db2)/test" := by
  refine ⟨?_, by decide, by decide⟩
  intro c dbName rw
  apply String.ext
  simp [Config.formatDSN, Sprintf, sprintfChars, Config.host, String.data_append]

/-! ## Manager: single operations -/

/-- C2 fails on the code as stated: for the pool of "demoa" in appDB with useCnt at
the least int, -2^63, ReleaseDB does not lower the counter by one: `useCnt--` wraps
around to 2^63 - 1, the pool counts as in use and stays in appDB. -/
theorem ReleaseDB_wraps :
    ((countedHeap (-9223372036854775808)).pools 0).useCnt = -9223372036854775808 ∧
    ((activeMgr.ReleaseDB 0 (countedHeap (-9223372036854775808)) 0).1.pools 0).useCnt =
      9223372036854775807 ∧
    ((activeMgr.ReleaseDB 0 (countedHeap (-9223372036854775808)) 0).1.pools 0).useCnt ≠
      ((countedHeap (-9223372036854775808)).pools 0).useCnt - 1 ∧
    ((activeMgr.ReleaseDB 0 (countedHeap (-9223372036854775808)) 0).1.pools 0).inUse = true ∧
    (activeMgr.ReleaseDB 0 (countedHeap (-9223372036854775808)) 0).2.appDB "demoa" = some 0 := by
  decide

/-- C2 as amended: ReleaseDB(db) replaces db.useCnt by the 64-bit value of
useCnt - 1, which is exactly one less whenever useCnt is a 64-bit int above the
least one, and touches no other DB. When db is then no longer in use, its appID is
removed from appDB (the other keys keep their pools) and the idle registry has an
entry for that appID; when it is still in use, appDB and the idle registry are
exactly as before. -/
theorem ReleaseDB_spec (self : Mgr) (now : Time) (h : Heap) (db : Nat) :
    ((self.ReleaseDB now h db).1.pools db).useCnt = wrapInt64 ((h.pools db).useCnt - 1) ∧
    (-2 ^ 63 < (h.pools db).useCnt → (h.pools db).useCnt < 2 ^ 63 →
      ((self.ReleaseDB now h db).1.pools db).useCnt = (h.pools db).useCnt - 1) ∧
    (∀ q, q ≠ db → (self.ReleaseDB now h db).1.pools q = h.pools q) ∧
    (if ((self.ReleaseDB now h db).1.pools db).inUse = true then
      (self.ReleaseDB now h db).2.appDB = self.appDB ∧
      (self.ReleaseDB now h db).2.idle = self.idle
    else
      (self.ReleaseDB now h db).2.appDB (h.pools db).AppID = none ∧
      (∀ t, t ≠ (h.pools db).AppID → (self.ReleaseDB now h db).2.appDB t = self.appDB t) ∧
      (self.ReleaseDB now h db).2.idle.onIdle (h.pools db).AppID = true) := by
  have hcnt : ((self.ReleaseDB now h db).1.pools db).useCnt =
      wrapInt64 ((h.pools db).useCnt - 1) := by
    unfold Mgr.ReleaseDB
    simp only []
    split <;> simp [setPool, DB.release]
  have hfit : -2 ^ 63 < (h.pools db).useCnt → (h.pools db).useCnt < 2 ^ 63 →
      ((self.ReleaseDB now h db).1.pools db).useCnt = (h.pools db).useCnt - 1 := by
    intro hlo hhi
    rw [hcnt]
    exact wrapInt64_of_fits (by omega) (by omega)
  have hoth : ∀ q, q ≠ db → (self.ReleaseDB now h db).1.pools q = h.pools q := by
    intro q hq
    unfold Mgr.ReleaseDB
    simp only []
    split <;> simp [setPool, hq]
  refine ⟨hcnt, hfit, hoth, ?_⟩
  have hin : ((self.ReleaseDB now h db).1.pools db).inUse =
      (setPool h.pools db (h.pools db).release db).inUse := by
    unfold Mgr.ReleaseDB
    simp only []
    split <;> rfl
  rw [hin]
  unfold Mgr.ReleaseDB
  simp only []
  cases hu : (setPool h.pools db (h.pools db).release db).inUse
  · simp only [Bool.not_false, if_true, Bool.false_eq_true, if_false]
    have happ : (setPool h.pools db (h.pools db).release db).AppID = (h.pools db).AppID := by
      simp [setPool, DB.release, DB.AppID]
    rw [happ]
    refine ⟨by simp [mapDelete], ?_, ?_⟩
    · intro t ht
      simp [mapDelete, ht]
    · unfold idleMgr.idleAppDB idleMgr.onIdle
      simp only [happ]
      cases he : self.idle.idleMap (h.pools db).AppID
      · simp [mapSet]
      · simp [he]
  · simp

/-- Witness of C2 as amended: the pool of "demoa" in appDB with one holder. -/
theorem ReleaseDB_spec_witness :
    -2 ^ 63 < ((countedHeap 1).pools 0).useCnt ∧ ((countedHeap 1).pools 0).useCnt < 2 ^ 63 ∧
    ((activeMgr.ReleaseDB 0 (countedHeap 1) 0).1.pools 0).useCnt =
      ((countedHeap 1).pools 0).useCnt - 1 :=
  ⟨by decide, by decide,
    (ReleaseDB_spec activeMgr 0 (countedHeap 1) 0).2.1 (by decide) (by decide)⟩

/-- C3 fails on the code as stated: the registry holds the pool of "demoa" with
useCnt at the greatest int, 2^63 - 1; DB("demoa") returns that pool, and `useCnt++`
wraps around to -2^63, which is not one more than before. -/
theorem DB_takes_idle_wraps :
    idleDemoMgr.appDB "demoa" = none ∧
    idleDemoMgr.idle.idleMap "demoa" =
      some { addr := 0, Value := { db := 0, expireAt := 0 + defMaxTTL } } ∧
    ((countedHeap 9223372036854775807).pools 0).useCnt = 9223372036854775807 ∧
    (idleDemoMgr.DB openNone (countedHeap 9223372036854775807) "demoa").2.2 = .ok 0 ∧
    ((idleDemoMgr.DB openNone (countedHeap 9223372036854775807) "demoa").1.pools 0).useCnt =
      -9223372036854775808 := by
  have hq : idleDemoMgr.appDB "demoa" = none := rfl
  have hi : idleDemoMgr.idle.idleMap "demoa" =
      some { addr := 0, Value := { db := 0, expireAt := 0 + defMaxTTL } } := by decide
  rw [DB_miss_ok hq (maybeIdleDB_present openNone _ hi)]
  exact ⟨hq, hi, by decide, rfl, by decide⟩

/-- C3 as amended: when tenant t is absent from appDB and the idle registry holds
pool p for t, DB(t) returns p itself and does not call newDB; afterwards appDB[t]
is p, the counter of p is the 64-bit value of useCnt + 1, which is exactly one more
than before whenever useCnt is a 64-bit int below the greatest one, no other DB is
touched, and the registry no longer contains t (its element is taken out of the
list). Likewise idleAppDB of a pool whose appID the registry does not hold,
followed by AppDB, hands back that same pool. -/
theorem DB_takes_idle (self : Mgr) (opener : Opener) (h : Heap) (t : String) (e : Element)
    (habs : self.appDB t = none) (hidle : self.idle.idleMap t = some e) :
    (self.DB opener h t).2.2 = .ok e.Value.db ∧
    (self.DB opener h t).1.newDBCalls = h.newDBCalls ∧
    (self.DB opener h t).2.1.appDB t = some e.Value.db ∧
    ((self.DB opener h t).1.pools e.Value.db).useCnt =
      wrapInt64 ((h.pools e.Value.db).useCnt + 1) ∧
    (-2 ^ 63 ≤ (h.pools e.Value.db).useCnt → (h.pools e.Value.db).useCnt < 2 ^ 63 - 1 →
      ((self.DB opener h t).1.pools e.Value.db).useCnt = (h.pools e.Value.db).useCnt + 1) ∧
    (∀ q, q ≠ e.Value.db → (self.DB opener h t).1.pools q = h.pools q) ∧
    (self.DB opener h t).2.1.idle.onIdle t = false ∧
    (self.DB opener h t).2.1.idle.idleList = listRemove self.idle.idleList e ∧
    (∀ (m : idleMgr) (now : Time) (pools : Nat → DB) (db : Nat),
      m.onIdle (pools db).AppID = false →
      ((m.idleAppDB now pools db).AppDB (pools db).AppID).2 = some db) := by
  rw [DB_miss_ok habs (maybeIdleDB_present opener h hidle)]
  refine ⟨rfl, rfl, by simp [mapSet], by simp [setPool, DB.use], ?_, ?_,
    by simp [idleMgr.onIdle, mapDelete], rfl, ?_⟩
  · intro hlo hhi
    simp only [setPool, DB.use, if_true]
    exact wrapInt64_of_fits (by omega) (by omega)
  · intro q hq
    simp [setPool, hq]
  · intro m now pools db hm
    have hnone : m.idleMap (pools db).AppID = none := by
      simpa [idleMgr.onIdle] using hm
    simp [idleMgr.idleAppDB, hnone, idleMgr.AppDB, mapSet]

/-- Witness of C3 as amended: a manager whose registry holds pool 0 for "demoa",
with counter 0, and a driver that would refuse to open. -/
theorem DB_takes_idle_witness :
    idleDemoMgr.appDB "demoa" = none ∧
    idleDemoMgr.idle.idleMap "demoa" =
      some { addr := 0, Value := { db := 0, expireAt := 0 + defMaxTTL } } ∧
    -2 ^ 63 ≤ (demoHeap.pools 0).useCnt ∧ (demoHeap.pools 0).useCnt < 2 ^ 63 - 1 ∧
    (idleDemoMgr.DB openNone demoHeap "demoa").2.2 = .ok 0 ∧
    (idleDemoMgr.DB openNone demoHeap "demoa").1.newDBCalls = demoHeap.newDBCalls ∧
    ((idleDemoMgr.DB openNone demoHeap "demoa").1.pools 0).useCnt =
      (demoHeap.pools 0).useCnt + 1 :=
  ⟨rfl, by decide, by decide, by decide,
    (DB_takes_idle idleDemoMgr openNone demoHeap "demoa"
      { addr := 0, Value := { db := 0, expireAt := 0 + defMaxTTL } } rfl (by decide)).1,
    (DB_takes_idle idleDemoMgr openNone demoHeap "demoa"
      { addr := 0, Value := { db := 0, expireAt := 0 + defMaxTTL } } rfl (by decide)).2.1,
    (DB_takes_idle idleDemoMgr openNone demoHeap "demoa"
      { addr := 0, Value := { db := 0, expireAt := 0 + defMaxTTL } } rfl (by decide)).2.2.2.2.1
      (by decide) (by decide)⟩

/-- C6: when tenant t is in neither appDB nor the idle registry and opening its
pool fails with error e, DB(t) returns that error and leaves appDB and the idle
registry as they were; newDB has been called once, and a later DB(t), whatever
the driver answers then, calls newDB again. -/
theorem DB_open_error (self : Mgr) (opener : Opener) (h : Heap) (t : String) (err : Error)
    (habs : self.appDB t = none) (hidle : self.idle.onIdle t = false)
    (hfail : (newDB opener h t self.dbConfig).2 = .error err) :
    (self.DB opener h t).2.2 = .error err ∧
    (self.DB opener h t).2.1.appDB = self.appDB ∧
    (self.DB opener h t).2.1.idle = self.idle ∧
    (self.DB opener h t).1.newDBCalls = h.newDBCalls ++ [t] ∧
    (∀ opener2 : Opener,
      ((self.DB opener h t).2.1.DB opener2 (self.DB opener h t).1 t).1.newDBCalls =
        h.newDBCalls ++ [t] ++ [t]) := by
  have hnone : self.idle.idleMap t = none := by
    simpa [idleMgr.onIdle] using hidle
  rw [DB_miss_err habs (maybeIdleDB_absent_err hnone hfail)]
  refine ⟨rfl, rfl, rfl, newDB_calls _ _ _ _, ?_⟩
  intro opener2
  simp only []
  cases hr : (newDB opener2 (newDB opener h t self.dbConfig).1 t self.dbConfig).2 with
  | error e2 =>
    rw [DB_miss_err habs (maybeIdleDB_absent_err hnone hr)]
    simp [newDB_calls]
  | ok p =>
    rw [DB_miss_ok habs (maybeIdleDB_absent_ok hnone hr)]
    simp [newDB_calls]

/-- Witness of C6: the new manager, a driver that refuses to open. -/
theorem DB_open_error_witness :
    (NewMgr testConfig).appDB "demoa" = none ∧
    (NewMgr testConfig).idle.onIdle "demoa" = false ∧
    (newDB openNone emptyHeap "demoa" (NewMgr testConfig).dbConfig).2 = .error "unknown driver" ∧
    ((NewMgr testConfig).DB openNone emptyHeap "demoa").2.2 = .error "unknown driver" :=
  ⟨rfl, rfl, rfl,
    (DB_open_error (NewMgr testConfig) openNone emptyHeap "demoa" "unknown driver" rfl rfl rfl).1⟩

theorem DBs_hit (opener : Opener) (t : String) (p : Nat) (n : Nat) :
    ∀ (self : Mgr) (h : Heap), self.appDB t = some p →
      -2 ^ 63 ≤ (h.pools p).useCnt → (h.pools p).useCnt ≤ 2 ^ 63 - 1 →
      (self.DBs opener h t n).2.2 = List.replicate n (.ok p) ∧
      (self.DBs opener h t n).1.newDBCalls = h.newDBCalls ∧
      ((self.DBs opener h t n).1.pools p).AppID = (h.pools p).AppID ∧
      (self.DBs opener h t n).2.1 = self ∧
      ((self.DBs opener h t n).1.pools p).useCnt = wrapInt64 ((h.pools p).useCnt + n) ∧
      ((self.DBs opener h t n).1.pools p).dbRW = (h.pools p).dbRW := by
  induction n with
  | zero =>
    intro self h hp hlo hhi
    simp only [Mgr.DBs, List.replicate, Nat.cast_zero, add_zero, true_and]
    exact ⟨(wrapInt64_of_fits hlo hhi).symm, trivial⟩
  | succ n ih =>
    intro self h hp hlo hhi
    simp only [Mgr.DBs, DB_hit opener h hp]
    have hfit := wrapInt64_fits ((h.pools p).useCnt + 1)
    obtain ⟨h1, h2, h3, h4, h5, h6⟩ :=
      ih self { h with pools := setPool h.pools p (h.pools p).use } hp
        (by simpa [setPool, DB.use] using hfit.1) (by simpa [setPool, DB.use] using hfit.2)
    refine ⟨by rw [h1]; rfl, h2, by rw [h3]; simp [setPool, DB.use, DB.AppID], h4, ?_, ?_⟩
    · rw [h5]
      simp only [setPool, DB.use, if_true]
      rw [wrapInt64_wrapInt64_add]
      congr 1
      push_cast
      ring
    · rw [h6]
      simp [setPool, DB.use]

theorem DBs_miss (self : Mgr) (opener : Opener) (h : Heap) (t : String) (p : Nat)
    (habs : self.appDB t = none) (hidle : self.idle.onIdle t = false)
    (hopen : (newDB opener h t self.dbConfig).2 = .ok p) (n : Nat) :
    (self.DBs opener h t (n + 1)).2.2 = List.replicate (n + 1) (.ok p) ∧
    (self.DBs opener h t (n + 1)).1.newDBCalls = h.newDBCalls ++ [t] ∧
    ((self.DBs opener h t (n + 1)).1.pools p).AppID = t ∧
    (self.DBs opener h t (n + 1)).2.1 = { self with appDB := mapSet self.appDB t p } ∧
    ((self.DBs opener h t (n + 1)).1.pools p).useCnt = wrapInt64 ((n + 1 : Nat) : Int) ∧
    ((self.DBs opener h t (n + 1)).1.pools p).dbRW ≠ none := by
  have hnone : self.idle.idleMap t = none := by
    simpa [idleMgr.onIdle] using hidle
  obtain ⟨-, happ, hcnt, hrw, -, -, -⟩ := newDB_ok hopen
  simp only [Mgr.DBs, DB_miss_ok habs (maybeIdleDB_absent_ok hnone hopen)]
  have hp : ({ self with appDB := mapSet self.appDB t p } : Mgr).appDB t = some p := by
    simp [mapSet]
  have hone : (setPool (newDB opener h t self.dbConfig).1.pools p
      ((newDB opener h t self.dbConfig).1.pools p).use p).useCnt = 1 := by
    simp only [setPool, DB.use, if_true, hcnt]
    decide
  obtain ⟨h1, h2, h3, h4, h5, h6⟩ := DBs_hit opener t p n _
    { (newDB opener h t self.dbConfig).1 with
      pools := setPool (newDB opener h t self.dbConfig).1.pools p
        ((newDB opener h t self.dbConfig).1.pools p).use } hp
    (by rw [hone]; decide) (by rw [hone]; decide)
  refine ⟨by rw [h1]; rfl, by rw [h2]; exact newDB_calls _ _ _ _, ?_, h4, ?_, ?_⟩
  · rw [h3]
    simp [setPool, DB.use, DB.AppID, happ]
  · rw [h5, hone]
    congr 1
    push_cast
    ring
  · rw [h6]
    simpa [setPool, DB.use] using hrw

/-- C4 fails on the code as stated: after 2^63 successive DB("demoa") calls on the
new manager the pool has useCnt = -2^63, not 2^63: `useCnt++` wraps around at the
greatest int. -/
theorem DB_repeated_wraps :
    (NewMgr testConfig).appDB "demoa" = none ∧
    (NewMgr testConfig).idle.onIdle "demoa" = false ∧
    (newDB openAll emptyHeap "demoa" (NewMgr testConfig).dbConfig).2 = .ok 0 ∧
    1 ≤ 2 ^ 63 ∧
    (((NewMgr testConfig).DBs openAll emptyHeap "demoa" (2 ^ 63)).1.pools 0).useCnt =
      -9223372036854775808 ∧
    (-9223372036854775808 : Int) ≠ ((2 ^ 63 : Nat) : Int) := by
  have h := (DBs_miss (NewMgr testConfig) openAll emptyHeap "demoa" 0 rfl rfl rfl
    (2 ^ 63 - 1)).2.2.2.2.1
  refine ⟨rfl, rfl, rfl, by decide, ?_, by decide⟩
  have he : 2 ^ 63 - 1 + 1 = 2 ^ 63 := by decide
  rw [he] at h
  rw [h]
  decide

/-- C4 as amended: for a tenant t in neither appDB nor the idle registry whose pool
opens, and every N ≥ 1, N successive DB(t) calls call newDB exactly once, all
return the same pool p, whose AppID is t and which is appDB[t], and leave p with
the 64-bit value of N as useCnt, which is N itself whenever N < 2^63. -/
theorem DB_repeated (self : Mgr) (opener : Opener) (h : Heap) (t : String) (p : Nat)
    (habs : self.appDB t = none) (hidle : self.idle.onIdle t = false)
    (hopen : (newDB opener h t self.dbConfig).2 = .ok p) (N : Nat) (hN : 1 ≤ N) :
    (self.DBs opener h t N).2.2 = List.replicate N (.ok p) ∧
    (self.DBs opener h t N).1.newDBCalls = h.newDBCalls ++ [t] ∧
    ((self.DBs opener h t N).1.pools p).AppID = t ∧
    (self.DBs opener h t N).2.1.appDB t = some p ∧
    ((self.DBs opener h t N).1.pools p).useCnt = wrapInt64 N ∧
    (N < 2 ^ 63 → ((self.DBs opener h t N).1.pools p).useCnt = N) := by
  obtain ⟨n, rfl⟩ : ∃ n, N = n + 1 := ⟨N - 1, by omega⟩
  obtain ⟨h1, h2, h3, h4, h5, -⟩ := DBs_miss self opener h t p habs hidle hopen n
  refine ⟨h1, h2, h3, by rw [h4]; simp [mapSet], h5, ?_⟩
  intro hcap
  rw [h5]
  apply wrapInt64_of_fits
  · have : (0 : Int) ≤ ((n + 1 : Nat) : Int) := Int.natCast_nonneg _
    omega
  · have : ((n + 1 : Nat) : Int) < 2 ^ 63 := by exact_mod_cast hcap
    omega

/-- Witness of C4 as amended: three calls DB("demoa") on the new manager. -/
theorem DB_repeated_witness :
    (NewMgr testConfig).appDB "demoa" = none ∧
    (NewMgr testConfig).idle.onIdle "demoa" = false ∧
    (newDB openAll emptyHeap "demoa" (NewMgr testConfig).dbConfig).2 = .ok 0 ∧
    1 ≤ 3 ∧ 3 < 2 ^ 63 ∧
    (((NewMgr testConfig).DBs openAll emptyHeap "demoa" 3).1.pools 0).useCnt = (3 : Nat) :=
  ⟨rfl, rfl, rfl, by decide, by decide,
    (DB_repeated (NewMgr testConfig) openAll emptyHeap "demoa" 0 rfl rfl rfl 3
      (by decide)).2.2.2.2.2 (by decide)⟩

/-! ## Idle registry: refresh of an entry -/

theorem idleAppDB_present {self : idleMgr} {pools : Nat → DB} {db : Nat} {e : Element}
    (now : Time) (hq : self.idleMap (pools db).AppID = some e) :
    self.idleAppDB now pools db = self := by
  simp [idleMgr.idleAppDB, hq]

/-- C9 fails on the code: idleAppDB on a registry that already holds an entry for the
appID of db changes a copy of the stored value only. The registry holds "demob"
(idle since 500) in front of "demoa" (idle since 0); idleAppDB for the pool of
"demoa" at time 1000 leaves the stored entry with expireAt = 0 + maxTTL instead
of 1000 + maxTTL, and leaves it at the back of the list instead of the front. -/
theorem idleAppDB_keeps_stale_entry :
    staleRegistry.onIdle (demoHeap.pools 0).AppID = true ∧
    staleRegistry.idleList.map (fun e => (e.Value.db, e.Value.expireAt)) =
      [(1, 300000000500), (0, 300000000000)] ∧
    (1000 : Time) + staleRegistry.maxTTL = 300000001000 ∧
    ((staleRegistry.idleAppDB 1000 demoHeap.pools 0).idleMap "demoa").map
      (fun e => e.Value.expireAt) = some 300000000000 ∧
    (staleRegistry.idleAppDB 1000 demoHeap.pools 0).idleList.map
      (fun e => (e.Value.db, e.Value.expireAt)) = [(1, 300000000500), (0, 300000000000)] := by
  decide

/-! ## The sweep -/

theorem expireLoop_map_sub (closer : Closer) (now : Time) (back : List Element) :
    ∀ (h : Heap) (idleMap : String → Option Element) (h1 : Heap) (back1 : List Element)
      (idleMap1 : String → Option Element),
      expireLoop closer now back h idleMap = some (h1, back1, idleMap1) →
      ∀ t, idleMap1 t = none ∨ idleMap1 t = idleMap t := by
  induction back with
  | nil =>
    intro h idleMap h1 back1 idleMap1 hr t
    simp [expireLoop] at hr
    right
    rw [hr.2.2]
  | cons elem back ih =>
    intro h idleMap h1 back1 idleMap1 hr t
    simp only [expireLoop] at hr
    split at hr
    · simp at hr
      right
      rw [hr.2.2]
    · split at hr
      · cases hr
      · rcases ih _ _ _ _ _ hr t with h0 | h0
        · left
          exact h0
        · rw [h0]
          simp only [mapDelete]
          split
          · left
            rfl
          · right
            rfl

/-! ## Manager: appDB and the idle registry never share a key -/

theorem Disjoint_DB (self : Mgr) (opener : Opener) (h : Heap) (t : String)
    (hd : self.Disjoint) : (self.DB opener h t).2.1.Disjoint := by
  cases hq : self.appDB t with
  | some p =>
    rw [DB_hit opener h hq]
    exact hd
  | none =>
    cases hi : self.idle.idleMap t with
    | some e =>
      rw [DB_miss_ok hq (maybeIdleDB_present opener h hi)]
      intro k
      simp only [mapSet, mapDelete]
      by_cases hk : k = t
      · simp [hk]
      · simpa [hk] using hd k
    | none =>
      cases hr : (newDB opener h t self.dbConfig).2 with
      | error err =>
        rw [DB_miss_err hq (maybeIdleDB_absent_err hi hr)]
        exact hd
      | ok p =>
        rw [DB_miss_ok hq (maybeIdleDB_absent_ok hi hr)]
        intro k
        simp only [mapSet]
        by_cases hk : k = t
        · simp [hk, hi]
        · simpa [hk] using hd k

theorem Disjoint_ReleaseDB (self : Mgr) (now : Time) (h : Heap) (db : Nat)
    (hd : self.Disjoint) : (self.ReleaseDB now h db).2.Disjoint := by
  unfold Mgr.ReleaseDB
  simp only []
  split
  · intro k
    simp only [mapDelete, idleMgr.idleAppDB]
    by_cases hk : k = (setPool h.pools db (h.pools db).release db).AppID
    · simp [hk]
    · simp only [hk, if_false]
      split
      · exact hd k
      · simpa [mapSet, hk] using hd k
  · exact hd

theorem Disjoint_expire (self : Mgr) (closer : Closer) (now : Time) (h h1 : Heap)
    (idle1 : idleMgr) (hd : self.Disjoint)
    (he : self.idle.expire closer now h = some (h1, idle1)) :
    ({ self with idle := idle1 } : Mgr).Disjoint := by
  unfold idleMgr.expire at he
  split at he
  · cases he
  · rename_i h2 back2 map2 hl
    cases he
    intro k
    rcases expireLoop_map_sub closer now _ _ _ _ _ _ hl k with h0 | h0
    · right
      exact h0
    · rcases hd k with h3 | h3
      · left
        exact h3
      · right
        simp only []
        rw [h0, h3]

theorem Disjoint_Step {s s1 : Heap × Mgr} (hs : Step s s1) (hd : s.2.Disjoint) :
    s1.2.Disjoint := by
  cases hs with
  | DB h m opener appID => exact Disjoint_DB m opener h appID hd
  | ReleaseDB h m now db => exact Disjoint_ReleaseDB m now h db hd
  | expire h m closer now h1 idle1 he => exact Disjoint_expire m closer now h h1 idle1 hd he

/-- C1: in every state reachable from NewMgr by DB, ReleaseDB and expire calls
with any arguments, no appID is at the same time a key of appDB and a key of the
idle registry's idleMap. -/
theorem appDB_idle_disjoint (dbConfig : Config) (s : Heap × Mgr)
    (hr : Reachable dbConfig s) (appID : String) :
    ¬ ((s.2.appDB appID).isSome = true ∧ s.2.idle.onIdle appID = true) := by
  have hd : s.2.Disjoint := by
    induction hr with
    | NewMgr h =>
      intro t
      left
      rfl
    | step _ hs ih => exact Disjoint_Step hs ih
  rintro ⟨h1, h2⟩
  rcases hd appID with h0 | h0
  · simp [h0] at h1
  · simp [idleMgr.onIdle, h0] at h2

/-- Witness of C1: the state after DB("demoa") and the release of the pool it
returned. -/
theorem appDB_idle_disjoint_witness :
    Reachable testConfig releasedRun ∧
    ¬ ((releasedRun.2.appDB "demoa").isSome = true ∧
        releasedRun.2.idle.onIdle "demoa" = true) :=
  ⟨Reachable.step (Reachable.step (Reachable.NewMgr emptyHeap)
      (Step.DB emptyHeap (NewMgr testConfig) openAll "demoa"))
      (Step.ReleaseDB _ _ 0 0),
    appDB_idle_disjoint testConfig releasedRun
      (Reachable.step (Reachable.step (Reachable.NewMgr emptyHeap)
        (Step.DB emptyHeap (NewMgr testConfig) openAll "demoa"))
        (Step.ReleaseDB _ _ 0 0)) "demoa"⟩

theorem DB_close_some (closer : Closer) (d : DB) (hrw : d.dbRW ≠ none) :
    ∃ d1 hs err, d.close closer = some (d1, hs, err) ∧ d1.appID = d.appID ∧
      d1.useCnt = d.useCnt := by
  obtain ⟨rw, hrw⟩ := Option.ne_none_iff_exists'.mp hrw
  unfold DB.close DB.RO DB.RW
  cases hro : d.dbRO with
  | none =>
    simp only [hrw]
    cases closer rw <;> simp
  | some ro =>
    simp only []
    cases closer ro with
    | some e => simp
    | none =>
      simp only [hrw]
      cases closer rw <;> simp

theorem expireLoop_run (closer : Closer) (now : Time) (back : List Element) :
    ∀ (h : Heap) (idleMap : String → Option Element),
      (back.map (fun e => e.Value.db)).Nodup →
      (∀ e ∈ back, e.Value.expireAt ≤ now → (h.pools e.Value.db).dbRW ≠ none) →
      ∃ h1 map1,
        expireLoop closer now back h idleMap =
          some (h1, back.dropWhile (fun e => decide (e.Value.expireAt ≤ now)), map1) ∧
        h1.closeCalls = h.closeCalls ++
          (back.takeWhile (fun e => decide (e.Value.expireAt ≤ now))).map (fun e => e.Value.db) ∧
        (∀ t, map1 t =
          if t ∈ (back.takeWhile (fun e => decide (e.Value.expireAt ≤ now))).map
              (fun e => (h.pools e.Value.db).AppID) then none else idleMap t) ∧
        (∀ q, q ∉ (back.takeWhile (fun e => decide (e.Value.expireAt ≤ now))).map
              (fun e => e.Value.db) → h1.pools q = h.pools q) ∧
        (∀ q, (h1.pools q).appID = (h.pools q).appID ∧ (h1.pools q).useCnt = (h.pools q).useCnt) ∧
        h1.nextDB = h.nextDB ∧ h1.newDBCalls = h.newDBCalls := by
  induction back with
  | nil =>
    intro h idleMap _ _
    exact ⟨h, idleMap, by simp [expireLoop]⟩
  | cons elem back ih =>
    intro h idleMap hnd hopen
    by_cases hexp : elem.Value.expireAt ≤ now
    · have hgt : ¬ elem.Value.expireAt > now := not_lt.mpr hexp
      obtain ⟨d1, hs, err, hcl, happ, hcnt⟩ :=
        DB_close_some closer (h.pools elem.Value.db) (hopen elem (List.mem_cons_self _ _) hexp)
      simp only [List.map_cons, List.nodup_cons] at hnd
      have hopen1 : ∀ e ∈ back, e.Value.expireAt ≤ now →
          (({ h with
              pools := setPool h.pools elem.Value.db d1
              sqlClosed := h.sqlClosed ++ hs
              closeCalls := h.closeCalls ++ [elem.Value.db] } : Heap).pools e.Value.db).dbRW
            ≠ none := by
        intro e he hex
        have hne : e.Value.db ≠ elem.Value.db := by
          intro heq
          exact hnd.1 (heq ▸ List.mem_map_of_mem (fun e => e.Value.db) he)
        simpa [setPool, hne] using hopen e (List.mem_cons_of_mem _ he) hex
      obtain ⟨h1, map1, hrun, hcalls, hmap, hpools, hsame, hnext, hnew⟩ :=
        ih _ (mapDelete idleMap (h.pools elem.Value.db).AppID) hnd.2 hopen1
      have hsame0 : ∀ q, (setPool h.pools elem.Value.db d1 q).appID = (h.pools q).appID ∧
          (setPool h.pools elem.Value.db d1 q).useCnt = (h.pools q).useCnt := by
        intro q
        by_cases hq : q = elem.Value.db
        · subst hq
          simp [setPool, happ, hcnt]
        · simp [setPool, hq]
      refine ⟨h1, map1, ?_, ?_, ?_, ?_, ?_, hnext, hnew⟩
      · simp only [expireLoop, hgt, if_false, hcl, hrun]
        simp [hexp]
      · rw [hcalls]
        simp [hexp]
      · intro t
        rw [hmap t]
        simp only [List.takeWhile_cons, hexp, decide_True, if_true, List.map_cons,
          List.mem_cons, DB.AppID, (hsame0 _).1, mapDelete]
        by_cases ht : t = (h.pools elem.Value.db).appID
        · simp [ht]
        · simp [ht]
      · intro q hq
        simp only [List.takeWhile_cons, hexp, decide_True, if_true, List.map_cons,
          List.mem_cons, not_or] at hq
        rw [hpools q hq.2]
        simp [setPool, hq.1]
      · intro q
        rw [(hsame q).1, (hsame q).2]
        exact hsame0 q
    · have hgt : elem.Value.expireAt > now := not_le.mp hexp
      exact ⟨h, idleMap, by simp [expireLoop, hgt, hexp]⟩

/-! ## Idle registry: the map and the list agree -/

theorem newIdleMgr_WellFormed (pools : Nat → DB) : newIdleMgr.WellFormed pools := by
  refine ⟨?_, ?_, ?_, ?_⟩ <;> simp [newIdleMgr]

theorem WellFormed_inj {self : idleMgr} {pools : Nat → DB} (hwf : self.WellFormed pools)
    {a b : Element} (ha : a ∈ self.idleList) (hb : b ∈ self.idleList)
    (hab : a.addr = b.addr) : a = b :=
  List.inj_on_of_nodup_map hwf.2.2.1 ha hb hab

theorem WellFormed_db_inj {self : idleMgr} {pools : Nat → DB} (hwf : self.WellFormed pools)
    {a b : Element} (ha : a ∈ self.idleList) (hb : b ∈ self.idleList)
    (hab : a.Value.db = b.Value.db) : a = b := by
  have h1 := hwf.1 a ha
  have h2 := hwf.1 b hb
  rw [hab, h2] at h1
  exact (Option.some.inj h1).symm

theorem WellFormed_congr {self : idleMgr} {pools pools1 : Nat → DB}
    (hwf : self.WellFormed pools)
    (hsame : ∀ e ∈ self.idleList, (pools1 e.Value.db).appID = (pools e.Value.db).appID) :
    self.WellFormed pools1 := by
  obtain ⟨h1, h2, h3, h4⟩ := hwf
  refine ⟨?_, ?_, h3, h4⟩
  · intro e he
    have := h1 e he
    simpa [DB.AppID, hsame e he] using this
  · intro t e hte
    obtain ⟨he, ht⟩ := h2 t e hte
    exact ⟨he, by simpa [DB.AppID, hsame e he] using ht⟩

theorem idleAppDB_WellFormed {self : idleMgr} {pools : Nat → DB} (now : Time) (db : Nat)
    (hwf : self.WellFormed pools) : (self.idleAppDB now pools db).WellFormed pools := by
  unfold idleMgr.idleAppDB
  simp only []
  cases hq : self.idleMap (pools db).AppID with
  | some elem => exact hwf
  | none =>
    obtain ⟨h1, h2, h3, h4⟩ := hwf
    refine ⟨?_, ?_, ?_, ?_⟩
    · intro e he
      simp only [List.mem_cons] at he
      rcases he with rfl | he
      · simp [mapSet]
      · have hne : (pools e.Value.db).AppID ≠ (pools db).AppID := by
          intro heq
          have := h1 e he
          rw [heq, hq] at this
          cases this
        simpa [mapSet, hne] using h1 e he
    · intro t e hte
      simp only [mapSet] at hte
      split at hte
      · rename_i ht
        cases hte
        exact ⟨List.mem_cons_self _ _, ht.symm⟩
      · obtain ⟨he, ht⟩ := h2 t e hte
        exact ⟨List.mem_cons_of_mem _ he, ht⟩
    · simp only [List.map_cons, List.nodup_cons]
      refine ⟨?_, h3⟩
      intro hmem
      obtain ⟨e, he, hee⟩ := List.mem_map.mp hmem
      have := h4 e he
      omega
    · intro e he
      simp only [List.mem_cons] at he
      rcases he with rfl | he
      · simp
      · have := h4 e he
        simp only []
        omega

theorem AppDB_WellFormed {self : idleMgr} {pools : Nat → DB} (appID : String)
    (hwf : self.WellFormed pools) : (self.AppDB appID).1.WellFormed pools := by
  cases hq : self.idleMap appID with
  | none =>
    rw [AppDB_absent hq]
    exact hwf
  | some elem =>
    rw [AppDB_present hq]
    obtain ⟨h1, h2, h3, h4⟩ := hwf
    have helem := h2 appID elem hq
    refine ⟨?_, ?_, ?_, ?_⟩
    · intro e he
      simp only [listRemove, List.mem_filter, bne_iff_ne, ne_eq] at he
      have hne : (pools e.Value.db).AppID ≠ appID := by
        intro heq
        have := h1 e he.1
        rw [heq, hq] at this
        cases this
        exact he.2 rfl
      simpa [mapDelete, hne] using h1 e he.1
    · intro t e hte
      simp only [mapDelete] at hte
      split at hte
      · cases hte
      · rename_i ht
        obtain ⟨he, happ⟩ := h2 t e hte
        refine ⟨?_, happ⟩
        simp only [listRemove, List.mem_filter, bne_iff_ne, ne_eq]
        refine ⟨he, ?_⟩
        intro haddr
        have : e = elem := List.inj_on_of_nodup_map h3 he helem.1 haddr
        subst this
        exact ht (happ.symm.trans helem.2)
    · exact h3.sublist ((List.filter_sublist _).map _)
    · intro e he
      simp only [listRemove, List.mem_filter] at he
      exact h4 e he.1

theorem ascending_split (now : Time) (back : List Element)
    (hasc : back.Pairwise (fun a b => a.Value.expireAt ≤ b.Value.expireAt)) :
    back.takeWhile (fun e => decide (e.Value.expireAt ≤ now)) =
      back.filter (fun e => decide (e.Value.expireAt ≤ now)) ∧
    back.dropWhile (fun e => decide (e.Value.expireAt ≤ now)) =
      back.filter (fun e => decide (now < e.Value.expireAt)) := by
  induction back with
  | nil => simp
  | cons elem back ih =>
    obtain ⟨hall, hrest⟩ := List.pairwise_cons.mp hasc
    obtain ⟨ih1, ih2⟩ := ih hrest
    by_cases hexp : elem.Value.expireAt ≤ now
    · have hnot : ¬ now < elem.Value.expireAt := not_lt.mpr hexp
      simp [hexp, hnot, ih1, ih2]
    · have hlt : now < elem.Value.expireAt := not_le.mp hexp
      have hlive : ∀ b ∈ back, now < b.Value.expireAt := fun b hb =>
        lt_of_lt_of_le hlt (hall b hb)
      constructor
      · simp only [List.takeWhile_cons, hexp, decide_False, Bool.false_eq_true, if_false]
        symm
        rw [List.filter_eq_nil_iff]
        intro b hb
        simp only [List.mem_cons] at hb
        rcases hb with rfl | hb
        · simpa using hlt
        · simpa using hlive b hb
      · simp only [List.dropWhile_cons, hexp, decide_False, Bool.false_eq_true, if_false]
        symm
        rw [List.filter_eq_self]
        intro b hb
        simp only [List.mem_cons] at hb
        rcases hb with rfl | hb
        · simpa using hlt
        · simpa using hlive b hb

theorem expire_run (self : idleMgr) (closer : Closer) (now : Time) (h : Heap)
    (hwf : self.WellFormed h.pools)
    (hopen : ∀ e ∈ self.idleList, e.Value.expireAt ≤ now →
      (h.pools e.Value.db).dbRW ≠ none) :
    ∃ h1 idle1, self.expire closer now h = some (h1, idle1) ∧
      idle1.idleList =
        self.idleList.rdropWhile (fun e => decide (e.Value.expireAt ≤ now)) ∧
      h1.closeCalls = h.closeCalls ++
        (self.idleList.reverse.takeWhile (fun e => decide (e.Value.expireAt ≤ now))).map
          (fun e => e.Value.db) ∧
      (∀ t, idle1.idleMap t =
        if t ∈ (self.idleList.reverse.takeWhile (fun e => decide (e.Value.expireAt ≤ now))).map
            (fun e => (h.pools e.Value.db).AppID) then none else self.idleMap t) ∧
      (∀ q, q ∉ (self.idleList.reverse.takeWhile
            (fun e => decide (e.Value.expireAt ≤ now))).map (fun e => e.Value.db) →
          h1.pools q = h.pools q) ∧
      (∀ q, (h1.pools q).appID = (h.pools q).appID ∧ (h1.pools q).useCnt = (h.pools q).useCnt) ∧
      h1.nextDB = h.nextDB ∧ h1.newDBCalls = h.newDBCalls ∧
      idle1.elems = self.elems ∧ idle1.maxTTL = self.maxTTL ∧
      idle1.WellFormed h1.pools ∧
      (∀ e ∈ idle1.idleList, e ∈ self.idleList ∧ h1.pools e.Value.db = h.pools e.Value.db) := by
  have hnd : (self.idleList.reverse.map (fun e => e.Value.db)).Nodup := by
    apply List.Nodup.map_on
    · intro a ha b hb hab
      exact WellFormed_db_inj hwf (List.mem_reverse.mp ha) (List.mem_reverse.mp hb) hab
    · exact List.nodup_reverse.mpr (List.Nodup.of_map _ hwf.2.2.1)
  have hopen1 : ∀ e ∈ self.idleList.reverse, e.Value.expireAt ≤ now →
      (h.pools e.Value.db).dbRW ≠ none :=
    fun e he => hopen e (List.mem_reverse.mp he)
  obtain ⟨h1, map1, hrun, hcalls, hmap, hpools, hsame, hnext, hnew⟩ :=
    expireLoop_run closer now self.idleList.reverse h self.idleMap hnd hopen1
  refine ⟨h1, { self with
      idleList := (self.idleList.reverse.dropWhile
        (fun e => decide (e.Value.expireAt ≤ now))).reverse
      idleMap := map1 }, ?_, rfl, hcalls, hmap, hpools, hsame, hnext, hnew, rfl, rfl, ?_⟩
  · simp [idleMgr.expire, hrun]
  · have hsplit := List.takeWhile_append_dropWhile
      (fun e : Element => decide (e.Value.expireAt ≤ now)) self.idleList.reverse
    have hnodup : (self.idleList.reverse.takeWhile
          (fun e => decide (e.Value.expireAt ≤ now)) ++
        self.idleList.reverse.dropWhile (fun e => decide (e.Value.expireAt ≤ now))).Nodup := by
      rw [hsplit]
      exact List.nodup_reverse.mpr (List.Nodup.of_map _ hwf.2.2.1)
    have hdisj := (List.nodup_append.mp hnodup).2.2
    have hsub : ∀ e, e ∈ self.idleList.reverse.dropWhile
        (fun e => decide (e.Value.expireAt ≤ now)) → e ∈ self.idleList := fun e he =>
      List.mem_reverse.mp ((List.dropWhile_sublist _).subset he)
    have hsubT : ∀ e, e ∈ self.idleList.reverse.takeWhile
        (fun e => decide (e.Value.expireAt ≤ now)) → e ∈ self.idleList := fun e he =>
      List.mem_reverse.mp ((List.takeWhile_sublist _).subset he)
    have hkeep : ∀ e ∈ (self.idleList.reverse.dropWhile
        (fun e => decide (e.Value.expireAt ≤ now))).reverse,
        e ∈ self.idleList ∧ h1.pools e.Value.db = h.pools e.Value.db := by
      intro e he
      have he1 := List.mem_reverse.mp he
      refine ⟨hsub e he1, hpools _ ?_⟩
      intro hmem
      obtain ⟨e2, he2, hdb⟩ := List.mem_map.mp hmem
      have : e2 = e := WellFormed_db_inj hwf (hsubT e2 he2) (hsub e he1) hdb
      subst this
      exact hdisj he2 he1
    refine ⟨?_, hkeep⟩
    obtain ⟨w1, w2, w3, w4⟩ := hwf
    refine ⟨?_, ?_, ?_, ?_⟩
    · intro e he
      simp only [List.mem_reverse] at he
      simp only [DB.AppID, (hsame _).1]
      rw [hmap]
      have hnot : (h.pools e.Value.db).appID ∉
          (self.idleList.reverse.takeWhile (fun e => decide (e.Value.expireAt ≤ now))).map
            (fun e => (h.pools e.Value.db).AppID) := by
        intro hmem
        obtain ⟨e2, he2, happ⟩ := List.mem_map.mp hmem
        have h1e := w1 e (hsub e he)
        have h2e := w1 e2 (hsubT e2 he2)
        simp only [DB.AppID] at happ h1e h2e
        rw [← happ, h2e] at h1e
        cases h1e
        exact hdisj he2 he
      rw [if_neg hnot]
      exact w1 e (hsub e he)
    · intro t e hte
      simp only [] at hte
      rw [hmap] at hte
      split at hte
      · cases hte
      · rename_i hnot
        obtain ⟨he, happ⟩ := w2 t e hte
        simp only [DB.AppID, (hsame _).1, List.mem_reverse]
        refine ⟨?_, happ⟩
        have hmem : e ∈ self.idleList.reverse := List.mem_reverse.mpr he
        rw [← hsplit, List.mem_append] at hmem
        rcases hmem with hm | hm
        · exact absurd (List.mem_map.mpr ⟨e, hm, happ⟩) hnot
        · exact hm
    · simp only []
      rw [List.map_reverse, List.nodup_reverse]
      have hs : (List.map Element.addr (self.idleList.reverse.dropWhile
          (fun e => decide (e.Value.expireAt ≤ now)))).Sublist
          (List.map Element.addr self.idleList.reverse) :=
        (List.dropWhile_sublist _).map _
      refine List.Nodup.sublist hs ?_
      rw [List.map_reverse, List.nodup_reverse]
      exact w3
    · intro e he
      simp only [List.mem_reverse] at he
      exact w4 e (hsub e he)

/-- C8 fails on the code as stated: after the steps of TestExpire the registry
holds one entry, for the DB of "demoa" that the first sweep closed (its RW handle
is nil), with expireAt = 2 maxTTL. A sweep before that time returns and keeps the
entry; the sweep at that time removes the entry and then does not return: close
dereferences the nil RW handle. -/
theorem expire_closed_pool_panics :
    reidledClosed.map
      (fun s => (s.2.idleList.map (fun e => (e.Value.db, e.Value.expireAt)),
        (s.1.pools 0).dbRW)) = some ([(0, 600000000000)], none) ∧
    (reidledClosed.bind (fun s => s.2.expire closeAll 599999999999 s.1)).map
      (fun r => r.2.idleList.map (fun e => e.Value.db)) = some [0] ∧
    (reidledClosed.bind (fun s => s.2.expire closeAll 600000000000 s.1)).isNone = true := by
  decide

/-- C8 as amended: on a registry whose map and list describe the same entries and
whose entries with expireAt ≤ now hold pools that have not been closed (their RW
handle is not nil), expire at time now returns, takes entries off the back of the
list while their expireAt is not after now and stops at the first one that is
after now, and calls close on the pools it took, oldest first. When the list is
ordered from freshest (front) to oldest (back), what it removes from idleList and
from idleMap, and closes, is exactly the entries with expireAt ≤ now; every other
entry stays in place and in order, and no other DB is touched. -/
theorem expire_sweep (self : idleMgr) (closer : Closer) (now : Time) (h : Heap)
    (hwf : self.WellFormed h.pools)
    (hopen : ∀ e ∈ self.idleList, e.Value.expireAt ≤ now →
      (h.pools e.Value.db).dbRW ≠ none) :
    ∃ h1 idle1, self.expire closer now h = some (h1, idle1) ∧
      idle1.idleList =
        self.idleList.rdropWhile (fun e => decide (e.Value.expireAt ≤ now)) ∧
      h1.closeCalls = h.closeCalls ++
        (self.idleList.reverse.takeWhile (fun e => decide (e.Value.expireAt ≤ now))).map
          (fun e => e.Value.db) ∧
      (self.Ordered →
        idle1.idleList = self.idleList.filter (fun e => decide (now < e.Value.expireAt)) ∧
        (∀ t, idle1.idleMap t =
          (self.idleMap t).filter (fun e => decide (now < e.Value.expireAt))) ∧
        h1.closeCalls = h.closeCalls ++
          ((self.idleList.filter (fun e => decide (e.Value.expireAt ≤ now))).map
            (fun e => e.Value.db)).reverse ∧
        (∀ q, q ∉ (self.idleList.filter (fun e => decide (e.Value.expireAt ≤ now))).map
            (fun e => e.Value.db) → h1.pools q = h.pools q)) := by
  obtain ⟨h1, idle1, hrun, hlist, hcalls, hmap, hpools, -, -, -, -, -, -, -⟩ :=
    expire_run self closer now h hwf hopen
  refine ⟨h1, idle1, hrun, hlist, hcalls, ?_⟩
  intro hord
  have hasc : self.idleList.reverse.Pairwise
      (fun a b => a.Value.expireAt ≤ b.Value.expireAt) :=
    List.pairwise_reverse.mpr hord
  obtain ⟨htake, hdrop⟩ := ascending_split now _ hasc
  rw [htake] at hcalls hmap hpools
  refine ⟨?_, ?_, ?_, ?_⟩
  · rw [hlist, List.rdropWhile, hdrop, List.filter_reverse, List.reverse_reverse]
  · intro t
    rw [hmap]
    cases hq : self.idleMap t with
    | none => simp
    | some e =>
      obtain ⟨he, happ⟩ := hwf.2.1 t e hq
      by_cases hexp : e.Value.expireAt ≤ now
      · have hmem : t ∈ (self.idleList.reverse.filter
            (fun e => decide (e.Value.expireAt ≤ now))).map
            (fun e => (h.pools e.Value.db).AppID) :=
          List.mem_map.mpr ⟨e, List.mem_filter.mpr ⟨List.mem_reverse.mpr he, by simpa using hexp⟩,
            happ⟩
        rw [if_pos hmem]
        simp [Option.filter, not_lt.mpr hexp]
      · have hnot : t ∉ (self.idleList.reverse.filter
            (fun e => decide (e.Value.expireAt ≤ now))).map
            (fun e => (h.pools e.Value.db).AppID) := by
          intro hmem
          obtain ⟨e2, he2, happ2⟩ := List.mem_map.mp hmem
          obtain ⟨hin, hp2⟩ := List.mem_filter.mp he2
          have := hwf.1 e2 (List.mem_reverse.mp hin)
          rw [happ2, hq] at this
          cases this
          exact hexp (by simpa using hp2)
        rw [if_neg hnot]
        simp [Option.filter, not_le.mp hexp]
  · rw [hcalls, List.filter_reverse, List.map_reverse]
  · intro q hq
    apply hpools
    rw [List.filter_reverse, List.map_reverse, List.mem_reverse]
    exact hq

theorem sweepRegistry_WellFormed : sweepRegistry.WellFormed sweepHeap.pools :=
  idleAppDB_WellFormed 30 2 (idleAppDB_WellFormed 20 1 (idleAppDB_WellFormed 10 0
    (newIdleMgr_WellFormed sweepHeap.pools)))

/-- Witness of C8 as amended: three entries with expireAt 10, 20 and 30 after
maxTTL, swept at the moment the second one expires; the pool of the entry that
stays has been closed before. -/
theorem expire_sweep_witness :
    sweepRegistry.WellFormed sweepHeap.pools ∧
    (∀ e ∈ sweepRegistry.idleList, e.Value.expireAt ≤ 20 + defMaxTTL →
      (sweepHeap.pools e.Value.db).dbRW ≠ none) ∧
    sweepRegistry.Ordered ∧
    ∃ h1 idle1, sweepRegistry.expire closeAll (20 + defMaxTTL) sweepHeap = some (h1, idle1) ∧
      idle1.idleList =
        sweepRegistry.idleList.rdropWhile (fun e => decide (e.Value.expireAt ≤ 20 + defMaxTTL)) ∧
      h1.closeCalls = sweepHeap.closeCalls ++
        (sweepRegistry.idleList.reverse.takeWhile
          (fun e => decide (e.Value.expireAt ≤ 20 + defMaxTTL))).map (fun e => e.Value.db) ∧
      (sweepRegistry.Ordered →
        idle1.idleList =
          sweepRegistry.idleList.filter (fun e => decide (20 + defMaxTTL < e.Value.expireAt)) ∧
        (∀ t, idle1.idleMap t =
          (sweepRegistry.idleMap t).filter (fun e => decide (20 + defMaxTTL < e.Value.expireAt))) ∧
        h1.closeCalls = sweepHeap.closeCalls ++
          ((sweepRegistry.idleList.filter
            (fun e => decide (e.Value.expireAt ≤ 20 + defMaxTTL))).map
              (fun e => e.Value.db)).reverse ∧
        (∀ q, q ∉ (sweepRegistry.idleList.filter
            (fun e => decide (e.Value.expireAt ≤ 20 + defMaxTTL))).map
              (fun e => e.Value.db) → h1.pools q = sweepHeap.pools q)) :=
  ⟨sweepRegistry_WellFormed, by decide, by unfold idleMgr.Ordered; decide,
    expire_sweep sweepRegistry closeAll (20 + defMaxTTL) sweepHeap sweepRegistry_WellFormed
      (by decide)⟩

/-! ## Manager: pools in the registry are not in use -/

theorem newDB_frame (opener : Opener) (h : Heap) (appID : String) (c : Config) :
    (∀ q, q < h.nextDB → (newDB opener h appID c).1.pools q = h.pools q) ∧
    h.nextDB ≤ (newDB opener h appID c).1.nextDB := by
  unfold newDB sqlxOpen configureDB
  cases opener c.Driver (c.formatDSN appID true) <;> simp
  cases c.hasRO <;> simp
  · intro q hq
    simp [setPool, Nat.ne_of_lt hq]
  · cases opener c.Driver (c.formatDSN appID false) <;> simp
    · intro q hq
      simp [setPool, Nat.ne_of_lt hq]
    · intro q hq
      simp [setPool, Nat.ne_of_lt hq]

theorem Inv_idle_ne {m : Mgr} {h : Heap} {held : Nat → Nat} (hinv : m.Inv h held)
    {t : String} {p : Nat} (hp : m.appDB t = some p) {e : Element}
    (he : e ∈ m.idle.idleList) : e.Value.db ≠ p := by
  obtain ⟨hA, hB, -, hD, -, -⟩ := hinv
  intro heq
  have h1 := hA.1 e he
  rw [heq] at h1
  simp only [DB.AppID, (hB t p hp).1] at h1
  rcases hD t with h0 | h0
  · rw [h0] at hp
    cases hp
  · rw [h0] at h1
    cases h1

theorem Inv_use {m : Mgr} {h : Heap} {held : Nat → Nat} (hinv : m.Inv h held)
    {t : String} {p : Nat} (hp : m.appDB t = some p) (hcap : held p < 2 ^ 63) :
    m.Inv { h with pools := setPool h.pools p (h.pools p).use } (bump held p) := by
  have hne := fun e he => Inv_idle_ne hinv hp (e := e) he
  obtain ⟨hA, hB, hC, hD, hE, hF⟩ := hinv
  have happ : ∀ q, (setPool h.pools p (h.pools p).use q).appID = (h.pools q).appID := by
    intro q
    by_cases hq : q = p
    · subst hq
      simp [setPool, DB.use]
    · simp [setPool, hq]
  refine ⟨WellFormed_congr hA (fun e _ => happ _), ?_, ?_, hD, ?_, ?_⟩
  · intro t1 q hq
    obtain ⟨b1, b2, b3, b4⟩ := hB t1 q hq
    by_cases hqp : q = p
    · subst hqp
      refine ⟨by rw [happ]; exact b1, b2, by simpa [setPool, DB.use] using b3, ?_⟩
      simp only [setPool, DB.use, bump, if_true, b4]
      rw [wrapInt64_wrapInt64_add]
      congr 1
    · simp [setPool, bump, hqp, b1, b2, b4]
      exact b3
  · intro e he
    obtain ⟨c1, c2, c3, c4⟩ := hC e he
    simp [setPool, bump, hne e he, c1, c3, c4]
    exact c2
  · intro q hq
    simp only [happ]
    by_cases hqp : q = p
    · subst hqp
      rw [(hB t q hp).1]
      exact hp
    · simp only [bump, hqp, if_false] at hq
      exact hE q hq
  · intro q
    by_cases hqp : q = p
    · subst hqp
      simp only [bump, if_true]
      omega
    · simp only [bump, hqp, if_false]
      exact hF q

theorem Inv_maybeIdleDB {m : Mgr} {h : Heap} {held : Nat → Nat} (hinv : m.Inv h held)
    (opener : Opener) {t : String} (hq : m.appDB t = none) :
    (m.maybeIdleDB opener h t).2.1.Inv (m.maybeIdleDB opener h t).1 held := by
  obtain ⟨hA, hB, hC, hD, hE, hF⟩ := hinv
  cases hi : m.idle.idleMap t with
  | some e =>
    have hwf1 := AppDB_WellFormed t hA
    rw [AppDB_present hi] at hwf1
    rw [maybeIdleDB_present opener h hi]
    dsimp only
    obtain ⟨hel, happ⟩ := hA.2.1 t e hi
    obtain ⟨c1, c2, c3, c4⟩ := hC e hel
    refine ⟨hwf1, ?_, ?_, ?_, ?_, hF⟩
    · intro t1 q hq1
      simp only [mapSet] at hq1
      split at hq1
      · rename_i ht
        cases hq1
        subst ht
        exact ⟨happ, c1, c2, by rw [c3, c4]; decide⟩
      · exact hB t1 q hq1
    · intro e1 he1
      simp only [listRemove, List.mem_filter] at he1
      exact hC e1 he1.1
    · intro k
      simp only [mapSet, mapDelete]
      by_cases hk : k = t
      · simp [hk]
      · simpa [hk] using hD k
    · intro q hq1
      have := hE q hq1
      have hne : (h.pools q).appID ≠ t := by
        intro heq
        rw [heq, hq] at this
        cases this
      simpa [mapSet, hne] using this
  | none =>
    obtain ⟨hfr, hnext⟩ := newDB_frame opener h t m.dbConfig
    have hwf1 : m.idle.WellFormed (newDB opener h t m.dbConfig).1.pools :=
      WellFormed_congr hA (fun e he => by rw [hfr _ (hC e he).1])
    have hC1 : ∀ e ∈ m.idle.idleList,
        e.Value.db < (newDB opener h t m.dbConfig).1.nextDB ∧
        ((newDB opener h t m.dbConfig).1.pools e.Value.db).dbRW ≠ none ∧
        ((newDB opener h t m.dbConfig).1.pools e.Value.db).useCnt = 0 ∧
        held e.Value.db = 0 := by
      intro e he
      obtain ⟨c1, c2, c3, c4⟩ := hC e he
      rw [hfr _ c1]
      exact ⟨lt_of_lt_of_le c1 hnext, c2, c3, c4⟩
    have hB1 : ∀ t1 q, m.appDB t1 = some q →
        ((newDB opener h t m.dbConfig).1.pools q).appID = t1 ∧
        q < (newDB opener h t m.dbConfig).1.nextDB ∧
        ((newDB opener h t m.dbConfig).1.pools q).dbRW ≠ none ∧
        ((newDB opener h t m.dbConfig).1.pools q).useCnt = wrapInt64 (held q) := by
      intro t1 q hq1
      obtain ⟨b1, b2, b3, b4⟩ := hB t1 q hq1
      rw [hfr _ b2]
      exact ⟨b1, lt_of_lt_of_le b2 hnext, b3, b4⟩
    have hE1 : ∀ q, 0 < held q →
        m.appDB ((newDB opener h t m.dbConfig).1.pools q).appID = some q := by
      intro q hq1
      have h1 := hE q hq1
      have h2 := (hB _ q h1).2.1
      rw [hfr _ h2]
      exact h1
    cases hr : (newDB opener h t m.dbConfig).2 with
    | error err =>
      rw [maybeIdleDB_absent_err hi hr]
      dsimp only
      exact ⟨hwf1, hB1, hC1, hD, hE1, hF⟩
    | ok p =>
      rw [maybeIdleDB_absent_ok hi hr]
      dsimp only
      obtain ⟨n1, n2, n3, n4, n5, -, -⟩ := newDB_ok hr
      have hheld : held p = 0 := by
        by_contra hne
        have h1 := hE p (Nat.pos_of_ne_zero hne)
        have h2 := (hB _ p h1).2.1
        omega
      refine ⟨hwf1, ?_, hC1, ?_, ?_, hF⟩
      · intro t1 q hq1
        simp only [mapSet] at hq1
        split at hq1
        · rename_i ht
          cases hq1
          subst ht
          exact ⟨n2, by omega, n4, by rw [n3, hheld]; decide⟩
        · exact hB1 t1 q hq1
      · intro k
        simp only [mapSet]
        by_cases hk : k = t
        · simp [hk, hi]
        · simpa [hk] using hD k
      · intro q hq1
        have h1 := hE q hq1
        have h2 := hE1 q hq1
        have hlt := (hB _ q h1).2.1
        have hne : ((newDB opener h t m.dbConfig).1.pools q).appID ≠ t := by
          rw [hfr _ hlt]
          intro heq
          rw [heq, hq] at h1
          cases h1
        simpa [mapSet, hne] using h2

theorem ReleaseDB_inUse (m : Mgr) (now : Time) (h : Heap) (p : Nat)
    (hpos : 0 < wrapInt64 ((h.pools p).useCnt - 1)) :
    m.ReleaseDB now h p =
      ({ h with pools := setPool h.pools p (h.pools p).release }, m) := by
  unfold Mgr.ReleaseDB
  simp [setPool, DB.release, DB.inUse, hpos]

theorem ReleaseDB_idle (m : Mgr) (now : Time) (h : Heap) (p : Nat)
    (hpos : ¬ 0 < wrapInt64 ((h.pools p).useCnt - 1)) :
    m.ReleaseDB now h p =
      ({ h with pools := setPool h.pools p (h.pools p).release },
        { m with
          idle := m.idle.idleAppDB now (setPool h.pools p (h.pools p).release) p
          appDB := mapDelete m.appDB (h.pools p).appID }) := by
  unfold Mgr.ReleaseDB
  simp [setPool, DB.release, DB.inUse, DB.AppID, hpos]

theorem idleAppDB_absent {self : idleMgr} {pools : Nat → DB} {db : Nat} (now : Time)
    (hq : self.idleMap (pools db).AppID = none) :
    self.idleAppDB now pools db =
      { self with
        idleList := { addr := self.elems, Value := { db := db, expireAt := now + self.maxTTL } }
          :: self.idleList
        idleMap := mapSet self.idleMap (pools db).AppID
          { addr := self.elems, Value := { db := db, expireAt := now + self.maxTTL } }
        elems := self.elems + 1 } := by
  simp [idleMgr.idleAppDB, hq]

theorem Inv_ReleaseDB {m : Mgr} {h : Heap} {held : Nat → Nat} (hinv : m.Inv h held)
    (now : Time) {p : Nat} (hheld : 0 < held p) :
    (m.ReleaseDB now h p).2.Inv (m.ReleaseDB now h p).1 (unbump held p) := by
  have hdisj := Disjoint_ReleaseDB m now h p hinv.2.2.2.1
  have hp := hinv.2.2.2.2.1 p hheld
  have hne := fun e he => Inv_idle_ne hinv hp (e := e) he
  obtain ⟨hA, hB, hC, hD, hE, hF⟩ := hinv
  obtain ⟨p1, p2, p3, p4⟩ := hB _ p hp
  have hcap := hF p
  have hnew : wrapInt64 ((h.pools p).useCnt - 1) = ((held p - 1 : Nat) : Int) := by
    rw [p4, wrapInt64_wrapInt64_sub]
    have h1 : ((held p - 1 : Nat) : Int) = (held p : Int) - 1 := by omega
    have h2 : ((held p : Nat) : Int) ≤ 2 ^ 63 := by exact_mod_cast hcap
    rw [h1]
    exact wrapInt64_of_fits (by omega) (by omega)
  have hnew2 : wrapInt64 ((h.pools p).useCnt - 1) = wrapInt64 ((held p - 1 : Nat) : Int) := by
    rw [hnew]
    have h2 : ((held p : Nat) : Int) ≤ 2 ^ 63 := by exact_mod_cast hcap
    exact (wrapInt64_of_fits (by omega) (by omega)).symm
  have hF1 : ∀ q, unbump held p q ≤ 2 ^ 63 := by
    intro q
    have := hF q
    by_cases hqp : q = p
    · subst hqp
      simp only [unbump, if_true]
      omega
    · simp only [unbump, hqp, if_false]
      exact this
  have happ : ∀ q, (setPool h.pools p (h.pools p).release q).appID = (h.pools q).appID := by
    intro q
    by_cases hq : q = p
    · subst hq
      simp [setPool, DB.release]
    · simp [setPool, hq]
  have hwf1 : m.idle.WellFormed (setPool h.pools p (h.pools p).release) :=
    WellFormed_congr hA (fun e _ => happ _)
  have hother : ∀ t1 q, t1 ≠ (h.pools p).appID → m.appDB t1 = some q → q ≠ p := by
    intro t1 q ht hq heq
    subst heq
    exact ht (hB t1 q hq).1.symm
  by_cases hpos : 0 < wrapInt64 ((h.pools p).useCnt - 1)
  · rw [ReleaseDB_inUse m now h p hpos]
    dsimp only
    refine ⟨hwf1, ?_, ?_, hD, ?_, hF1⟩
    · intro t1 q hq
      obtain ⟨b1, b2, b3, b4⟩ := hB t1 q hq
      by_cases hqp : q = p
      · subst hqp
        refine ⟨by rw [happ]; exact b1, b2, by simpa [setPool, DB.release] using b3, ?_⟩
        simp only [setPool, DB.release, unbump, if_true]
        exact hnew2
      · simp [setPool, unbump, hqp, b1, b2, b4]
        exact b3
    · intro e he
      obtain ⟨c1, c2, c3, c4⟩ := hC e he
      simp [setPool, unbump, hne e he, c1, c3, c4]
      exact c2
    · intro q hq
      rw [happ]
      by_cases hqp : q = p
      · subst hqp
        exact hp
      · simp only [unbump, hqp, if_false] at hq
        exact hE q hq
  · have hone : held p = 1 := by
      rw [hnew] at hpos
      omega
    have hnone : m.idle.idleMap (setPool h.pools p (h.pools p).release p).AppID = none := by
      simp only [DB.AppID, happ]
      rcases hD (h.pools p).appID with h0 | h0
      · rw [h0] at hp
        cases hp
      · exact h0
    have hwf2 := idleAppDB_WellFormed now p hwf1
    rw [ReleaseDB_idle m now h p hpos] at hdisj ⊢
    dsimp only at hdisj ⊢
    refine ⟨hwf2, ?_, ?_, hdisj, ?_, hF1⟩
    · intro t1 q hq
      simp only [mapDelete] at hq
      split at hq
      · cases hq
      · rename_i ht
        have hqp := hother t1 q ht hq
        obtain ⟨b1, b2, b3, b4⟩ := hB t1 q hq
        simp [setPool, unbump, hqp, b1, b2, b4]
        exact b3
    · intro e he
      rw [idleAppDB_absent now hnone] at he
      simp only [List.mem_cons] at he
      rcases he with rfl | he
      · refine ⟨p2, by simpa [setPool, DB.release] using p3, ?_, by simp [unbump, hone]⟩
        simp only [setPool, DB.release, if_true]
        rw [hnew, hone]
        rfl
      · obtain ⟨c1, c2, c3, c4⟩ := hC e he
        simp [setPool, unbump, hne e he, c1, c3, c4]
        exact c2
    · intro q hq
      rw [happ]
      have hqp : q ≠ p := by
        intro heq
        subst heq
        simp [unbump, hone] at hq
      simp only [unbump, hqp, if_false] at hq
      have h1 := hE q hq
      have hne2 : (h.pools q).appID ≠ (h.pools p).appID := by
        intro heq
        rw [heq, hp] at h1
        exact hqp (Option.some.inj h1).symm
      simpa [mapDelete, hne2] using h1

theorem Inv_expire {m : Mgr} {h : Heap} {held : Nat → Nat} (hinv : m.Inv h held)
    (closer : Closer) (now : Time) :
    ∃ h1 idle1, m.idle.expire closer now h = some (h1, idle1) ∧
      ({ m with idle := idle1 } : Mgr).Inv h1 held ∧
      ∃ closed, h1.closeCalls = h.closeCalls ++ closed ∧
        ∀ p ∈ closed, (h.pools p).useCnt = 0 := by
  have hne := fun t p hp e he => Inv_idle_ne hinv (t := t) (p := p) hp (e := e) he
  obtain ⟨hA, hB, hC, hD, hE, hF⟩ := hinv
  obtain ⟨h1, idle1, hrun, hlist, hcalls, hmap, hpools, hsame, hnext, -, -, -, hwf1, hkeep⟩ :=
    expire_run m.idle closer now h hA (fun e he _ => (hC e he).2.1)
  have hsubT : ∀ e, e ∈ m.idle.idleList.reverse.takeWhile
      (fun e => decide (e.Value.expireAt ≤ now)) → e ∈ m.idle.idleList := fun e he =>
    List.mem_reverse.mp ((List.takeWhile_sublist _).subset he)
  refine ⟨h1, idle1, hrun,
    ⟨hwf1, ?_, ?_, Disjoint_expire m closer now h h1 idle1 hD hrun, ?_, hF⟩, _, hcalls, ?_⟩
  · intro t q hq
    obtain ⟨b1, b2, b3, b4⟩ := hB t q hq
    have hnot : q ∉ (m.idle.idleList.reverse.takeWhile
        (fun e => decide (e.Value.expireAt ≤ now))).map (fun e => e.Value.db) := by
      intro hmem
      obtain ⟨e, he, hdb⟩ := List.mem_map.mp hmem
      exact hne t q hq e (hsubT e he) hdb
    rw [hpools q hnot, hnext]
    exact ⟨b1, b2, b3, b4⟩
  · intro e he
    obtain ⟨hin, hsm⟩ := hkeep e he
    obtain ⟨c1, c2, c3, c4⟩ := hC e hin
    rw [hsm, hnext]
    exact ⟨c1, c2, c3, c4⟩
  · intro q hq
    rw [(hsame q).1]
    exact hE q hq
  · intro p hp
    obtain ⟨e, he, hdb⟩ := List.mem_map.mp hp
    rw [← hdb]
    exact (hC e (hsubT e he)).2.2.1

theorem Inv_Serving {dbConfig : Config} {s : Heap × Mgr} {held : Nat → Nat}
    (hs : Serving (2 ^ 63) dbConfig s held) : s.2.Inv s.1 held := by
  induction hs with
  | NewMgr h =>
    refine ⟨newIdleMgr_WellFormed _, ?_, ?_, ?_, ?_, fun _ => Nat.zero_le _⟩
    · intro t p hp
      cases hp
    · intro e he
      cases he
    · intro t
      left
      rfl
    · intro p hp
      exact absurd hp (lt_irrefl 0)
  | @DB_ok h m held opener appID p _ hres hcap ih =>
    dsimp only at ih ⊢
    cases hq : m.appDB appID with
    | some q =>
      rw [DB_hit opener h hq] at hres ⊢
      cases hres
      exact Inv_use ih hq hcap
    | none =>
      have hinv1 := Inv_maybeIdleDB ih opener hq
      cases hm : (m.maybeIdleDB opener h appID) with
      | mk h1 r =>
        cases r with
        | mk m1 res =>
          rw [hm] at hinv1
          cases res with
          | error err =>
            rw [DB_miss_err hq hm] at hres
            cases hres
          | ok q =>
            rw [DB_miss_ok hq hm] at hres ⊢
            cases hres
            exact Inv_use hinv1 (maybeIdleDB_ok_appDB hm) hcap
  | @DB_error h m held opener appID err _ hres ih =>
    dsimp only at ih ⊢
    cases hq : m.appDB appID with
    | some q =>
      rw [DB_hit opener h hq] at hres
      cases hres
    | none =>
      have hinv1 := Inv_maybeIdleDB ih opener hq
      cases hm : (m.maybeIdleDB opener h appID) with
      | mk h1 r =>
        cases r with
        | mk m1 res =>
          rw [hm] at hinv1
          cases res with
          | error err =>
            rw [DB_miss_err hq hm]
            exact hinv1
          | ok q =>
            rw [DB_miss_ok hq hm] at hres
            cases hres
  | @ReleaseDB h m held now p _ hheld ih => exact Inv_ReleaseDB ih now hheld
  | @expire h m held closer now h1 idle1 _ he ih =>
    obtain ⟨h2, idle2, hrun, hinv, -⟩ := Inv_expire ih closer now
    rw [hrun] at he
    cases he
    exact hinv

/-- C7 as amended: in every state reached from NewMgr by DB, ReleaseDB (only on a
pool that a successful DB call returned, at most once per such call) and expire,
in a run where no pool ever has more than 2^63 DB calls outstanding, every pool
held by the idle registry has useCnt = 0; so expire, at any time and whatever the
driver answers, returns and calls close only on pools whose useCnt is 0. -/
theorem idle_pools_unused (dbConfig : Config) (s : Heap × Mgr) (held : Nat → Nat)
    (hs : Serving (2 ^ 63) dbConfig s held) :
    (∀ e ∈ s.2.idle.idleList, (s.1.pools e.Value.db).useCnt = 0) ∧
    (∀ (closer : Closer) (now : Time),
      ∃ h1 idle1, s.2.idle.expire closer now s.1 = some (h1, idle1) ∧
        ∃ closed, h1.closeCalls = s.1.closeCalls ++ closed ∧
          ∀ p ∈ closed, (s.1.pools p).useCnt = 0) := by
  have hinv := Inv_Serving hs
  refine ⟨fun e he => (hinv.2.2.1 e he).2.2.1, ?_⟩
  intro closer now
  obtain ⟨h1, idle1, hrun, -, hclosed⟩ := Inv_expire hinv closer now
  exact ⟨h1, idle1, hrun, hclosed⟩

theorem acquiredRun_ok : ((NewMgr testConfig).DB openAll emptyHeap "demoa").2.2 = .ok 0 := by
  have hn : (newDB openAll emptyHeap "demoa" (NewMgr testConfig).dbConfig).2 = .ok 0 := rfl
  have hi : (NewMgr testConfig).idle.idleMap "demoa" = none := rfl
  have hq : (NewMgr testConfig).appDB "demoa" = none := rfl
  rw [DB_miss_ok hq (maybeIdleDB_absent_ok hi hn)]

/-- Witness of C7 as amended: the state after DB("demoa") and the release of the
pool it returned. -/
theorem idle_pools_unused_witness :
    Serving (2 ^ 63) testConfig releasedRun (unbump (bump (fun _ => 0) 0) 0) ∧
    (∀ e ∈ releasedRun.2.idle.idleList, (releasedRun.1.pools e.Value.db).useCnt = 0) :=
  ⟨Serving.ReleaseDB 0 0
      (Serving.DB_ok openAll "demoa" 0 (Serving.NewMgr emptyHeap) acquiredRun_ok (by decide))
      (by decide),
    (idle_pools_unused testConfig releasedRun (unbump (bump (fun _ => 0) 0) 0)
      (Serving.ReleaseDB 0 0
        (Serving.DB_ok openAll "demoa" 0 (Serving.NewMgr emptyHeap) acquiredRun_ok
          (by decide))
        (by decide))).1⟩

theorem Serving_DBs (cap : Nat) (dbConfig : Config) (opener : Opener) (t : String) (p : Nat)
    (n : Nat) :
    ∀ (h : Heap) (m : Mgr) (held : Nat → Nat), Serving cap dbConfig (h, m) held →
      m.appDB t = some p → held p + n ≤ cap →
      ∃ held1, Serving cap dbConfig ((m.DBs opener h t n).1, (m.DBs opener h t n).2.1) held1 ∧
        held1 p = held p + n := by
  induction n with
  | zero =>
    intro h m held hs _ _
    exact ⟨held, hs, rfl⟩
  | succ n ih =>
    intro h m held hs hp hcap
    have hres : (m.DB opener h t).2.2 = .ok p := by rw [DB_hit opener h hp]
    have hs1 := Serving.DB_ok opener t p hs hres (by omega)
    rw [DB_hit opener h hp] at hs1
    obtain ⟨held1, hs2, hh⟩ := ih _ m (bump held p) hs1 hp (by simp only [bump, if_true]; omega)
    refine ⟨held1, ?_, ?_⟩
    · simp only [Mgr.DBs, DB_hit opener h hp]
      exact hs2
    · rw [hh]
      simp only [bump, if_true]
      omega

theorem overflowRun_spec (n : Nat) :
    ∃ held, Serving (n + 1) testConfig (overflowRun (n + 1)) held ∧ held 0 = n ∧
      (¬ 0 < wrapInt64 (wrapInt64 ((n + 1 : Nat) : Int) - 1) →
        ∃ e ∈ (overflowRun (n + 1)).2.idle.idleList, e.Value.db = 0 ∧
          ((overflowRun (n + 1)).1.pools e.Value.db).useCnt =
            wrapInt64 (wrapInt64 ((n + 1 : Nat) : Int) - 1)) := by
  have hq : (NewMgr testConfig).appDB "demoa" = none := rfl
  have hi : (NewMgr testConfig).idle.idleMap "demoa" = none := rfl
  have hn : (newDB openAll emptyHeap "demoa" (NewMgr testConfig).dbConfig).2 = .ok 0 := rfl
  -- the first call
  have hs0 : Serving (n + 1) testConfig acquiredRun (bump (fun _ => 0) 0) :=
    Serving.DB_ok openAll "demoa" 0 (Serving.NewMgr emptyHeap) acquiredRun_ok
      (Nat.succ_pos n)
  have hp0 : acquiredRun.2.appDB "demoa" = some 0 := by
    unfold acquiredRun
    rw [DB_miss_ok hq (maybeIdleDB_absent_ok hi hn)]
    simp [mapSet]
  -- the n calls after it
  obtain ⟨held1, hs1, hh1⟩ := Serving_DBs (n + 1) testConfig openAll "demoa" 0 n
    acquiredRun.1 acquiredRun.2 _ hs0 hp0 (by simp only [bump, if_true]; omega)
  have hcrowd : ((acquiredRun.2.DBs openAll acquiredRun.1 "demoa" n).1,
      (acquiredRun.2.DBs openAll acquiredRun.1 "demoa" n).2.1) = crowdedRun (n + 1) := by
    unfold crowdedRun acquiredRun
    simp only [Mgr.DBs]
  rw [hcrowd] at hs1
  have hh2 : held1 0 = n + 1 := by
    rw [hh1]
    simp only [bump, if_true]
    omega
  -- the release
  have hs2 : Serving (n + 1) testConfig (overflowRun (n + 1)) (unbump held1 0) :=
    Serving.ReleaseDB 0 0 hs1 (by omega)
  refine ⟨unbump held1 0, hs2, by simp only [unbump, if_true]; omega, ?_⟩
  -- the state it leaves
  intro hpos
  obtain ⟨-, -, -, hmgr, hcnt, -⟩ :=
    DBs_miss (NewMgr testConfig) openAll emptyHeap "demoa" 0 hq rfl hn n
  have hcnt1 : ((crowdedRun (n + 1)).1.pools 0).useCnt = wrapInt64 ((n + 1 : Nat) : Int) := by
    unfold crowdedRun
    exact hcnt
  have hmgr1 : (crowdedRun (n + 1)).2 =
      { NewMgr testConfig with appDB := mapSet (NewMgr testConfig).appDB "demoa" 0 } := by
    unfold crowdedRun
    exact hmgr
  rw [← hcnt1] at hpos ⊢
  have hrel := ReleaseDB_idle (crowdedRun (n + 1)).2 0 (crowdedRun (n + 1)).1 0 hpos
  have hnone : (crowdedRun (n + 1)).2.idle.idleMap (setPool (crowdedRun (n + 1)).1.pools 0
      ((crowdedRun (n + 1)).1.pools 0).release 0).AppID = none := by
    rw [hmgr1]
    rfl
  refine ⟨{ addr := (crowdedRun (n + 1)).2.idle.elems,
            Value := { db := 0, expireAt := 0 + (crowdedRun (n + 1)).2.idle.maxTTL } },
    ?_, rfl, ?_⟩
  · unfold overflowRun
    rw [hrel]
    dsimp only
    rw [idleAppDB_absent 0 hnone]
    exact List.mem_cons_self _ _
  · unfold overflowRun
    rw [hrel]
    simp only [setPool, DB.release, if_true]

/-- C7 fails on the code as stated: 2^63 + 1 successive DB("demoa") calls on the new
manager, each returning pool 0, and then one ReleaseDB of that pool keep to the
contract, yet the counter has wrapped around: the release finds useCnt = -2^63 + 1,
leaves -2^63, which is not above zero, and puts the pool into the idle registry
while 2^63 callers still hold it. -/
theorem idle_pool_still_held :
    ∃ held, Serving (2 ^ 63 + 1) testConfig (overflowRun (2 ^ 63 + 1)) held ∧
      held 0 = 2 ^ 63 ∧
      ∃ e ∈ (overflowRun (2 ^ 63 + 1)).2.idle.idleList, e.Value.db = 0 ∧
        ((overflowRun (2 ^ 63 + 1)).1.pools e.Value.db).useCnt = -9223372036854775808 ∧
        ((overflowRun (2 ^ 63 + 1)).1.pools e.Value.db).useCnt ≠ 0 := by
  obtain ⟨held, hs, hh, hidle⟩ := overflowRun_spec (2 ^ 63)
  have hval : wrapInt64 (wrapInt64 ((2 ^ 63 + 1 : Nat) : Int) - 1) = -9223372036854775808 := by
    decide
  rw [hval] at hidle
  obtain ⟨e, he, hdb, hcnt⟩ := hidle (by decide)
  exact ⟨held, hs, hh, e, he, hdb, hcnt, by rw [hcnt]; decide⟩

/-! ## newDB and close -/

/-- C11: newDB never hands back a partial pool. Whatever the driver answers, newDB
returns an error, or a DB whose AppID is appID, whose RW handle is not nil and
whose RO handle is not nil exactly when HostRO is not empty. When the RW open
fails its error is returned; when the RW open succeeds and the RO open fails, the
RW handle just opened is closed and the RO error is returned. -/
theorem newDB_no_partial_pool (opener : Opener) (h : Heap) (appID : String) (c : Config) :
    (match (newDB opener h appID c).2 with
      | .error _ => True
      | .ok p =>
        ((newDB opener h appID c).1.pools p).AppID = appID ∧
        ((newDB opener h appID c).1.pools p).RW ≠ none ∧
        (((newDB opener h appID c).1.pools p).RO ≠ none ↔ c.HostRO ≠ "")) ∧
    (∀ err, opener c.Driver (c.formatDSN appID true) = some err →
      (newDB opener h appID c).2 = .error err ∧
      (newDB opener h appID c).1.sqlClosed = h.sqlClosed) ∧
    (∀ err, opener c.Driver (c.formatDSN appID true) = none → c.HostRO ≠ "" →
      opener c.Driver (c.formatDSN appID false) = some err →
      (sqlxOpen opener h c.Driver (c.formatDSN appID true)).2 = .ok h.nextHandle ∧
      (newDB opener h appID c).2 = .error err ∧
      (newDB opener h appID c).1.sqlClosed = h.sqlClosed ++ [h.nextHandle]) := by
  refine ⟨?_, ?_, ?_⟩
  · unfold newDB sqlxOpen configureDB
    cases h1 : opener c.Driver (c.formatDSN appID true) <;> simp only []
    cases h2 : c.hasRO
    · have hro : c.HostRO = "" := by simpa [Config.hasRO] using h2
      simp [setPool, DB.AppID, DB.RW, DB.RO, hro]
    · have hro : c.HostRO ≠ "" := by simpa [Config.hasRO] using h2
      cases h3 : opener c.Driver (c.formatDSN appID false)
      · simp [setPool, DB.AppID, DB.RW, DB.RO, hro]
      · simp
  · intro err h1
    unfold newDB sqlxOpen
    simp [h1]
  · intro err h1 hro h3
    have h2 : c.hasRO = true := by simpa [Config.hasRO] using hro
    unfold newDB sqlxOpen
    simp [h1, h2, h3]

/-- Witness of C11: the replica of "demoa" is refused after the read-write server
was opened with handle 0; newDB returns the error and handle 0 is closed. -/
theorem newDB_no_partial_pool_witness :
    openMainOnly replicaConfig.Driver (replicaConfig.formatDSN "demoa" true) = none ∧
    replicaConfig.HostRO ≠ "" ∧
    openMainOnly replicaConfig.Driver (replicaConfig.formatDSN "demoa" false) =
      some "replica refused" ∧
    (newDB openMainOnly emptyHeap "demoa" replicaConfig).2 = .error "replica refused" ∧
    (newDB openMainOnly emptyHeap "demoa" replicaConfig).1.sqlClosed = [0] :=
  ⟨by decide, by decide, by decide,
    ((newDB_no_partial_pool openMainOnly emptyHeap "demoa" replicaConfig).2.2
      "replica refused" (by decide) (by decide) (by decide)).2.1,
    ((newDB_no_partial_pool openMainOnly emptyHeap "demoa" replicaConfig).2.2
      "replica refused" (by decide) (by decide) (by decide)).2.2⟩

/-- C12 fails on the code as stated: the pool of "demoa" with a replica closes
without error and both handles are nil afterwards, but a second close on that DB
does not return nil: `self.RW().Close()` is called on the nil RW handle, a nil
dereference. The same happens without a replica. -/
theorem close_twice_panics :
    (replicaDB.close closeAll).map (fun r => (r.1.RW, r.1.RO, r.2.2)) =
      some (none, none, none) ∧
    ((replicaDB.close closeAll).bind (fun r => r.1.close closeAll)).isNone = true ∧
    (({ replicaDB with dbRO := none } : DB).close closeAll).map
      (fun r => (r.1.RW, r.1.RO, r.2.2)) = some (none, none, none) ∧
    ((({ replicaDB with dbRO := none } : DB).close closeAll).bind
      (fun r => r.1.close closeAll)).isNone = true := by
  decide

/-- C12 as amended: for every DB with an RW handle (with or without an RO handle)
whose handles close without error, close returns nil after calling Close on the RO
handle, if any, and then on the RW handle, and leaves both RW() and RO() nil; appID
and useCnt are kept. A second close on that DB calls Close on no handle and does
not return: it stops at the nil RW handle. -/
theorem close_once (closer : Closer) (d : DB) (rw : Nat)
    (hrw : d.dbRW = some rw) (hcrw : closer rw = none)
    (hcro : ∀ ro, d.dbRO = some ro → closer ro = none) :
    ∃ d1, d.close closer = some (d1, d.dbRO.toList ++ [rw], none) ∧
      d1.RW = none ∧ d1.RO = none ∧ d1.appID = d.appID ∧ d1.useCnt = d.useCnt ∧
      d1.close closer = none := by
  obtain ⟨appID, dbRW, dbRO, useCnt⟩ := d
  simp only at hrw hcro
  subst hrw
  unfold DB.close DB.RO DB.RW
  cases dbRO with
  | none => simp [hcrw]
  | some ro => simp [hcrw, hcro ro rfl]

/-- Witness of C12 as amended: the pool of "demoa" with a replica. -/
theorem close_once_witness :
    replicaDB.dbRW = some 0 ∧ closeAll 0 = none ∧
    (∀ ro, replicaDB.dbRO = some ro → closeAll ro = none) ∧
    ∃ d1, replicaDB.close closeAll = some (d1, replicaDB.dbRO.toList ++ [0], none) ∧
      d1.RW = none ∧ d1.RO = none ∧ d1.appID = replicaDB.appID ∧
      d1.useCnt = replicaDB.useCnt ∧ d1.close closeAll = none :=
  ⟨rfl, rfl, fun _ _ => rfl, close_once closeAll replicaDB 0 rfl rfl (fun _ _ => rfl)⟩

/-! ## Idle registry: the list is ordered -/

theorem expireLoop_sublist (closer : Closer) (now : Time) (back : List Element) :
    ∀ (h : Heap) (idleMap : String → Option Element) (h1 : Heap) (back1 : List Element)
      (idleMap1 : String → Option Element),
      expireLoop closer now back h idleMap = some (h1, back1, idleMap1) →
      back1.Sublist back := by
  induction back with
  | nil =>
    intro h idleMap h1 back1 idleMap1 hr
    simp [expireLoop] at hr
    rw [← hr.2.1]
  | cons elem back ih =>
    intro h idleMap h1 back1 idleMap1 hr
    simp only [expireLoop] at hr
    split at hr
    · simp at hr
      rw [← hr.2.1]
    · split at hr
      · cases hr
      · exact (ih _ _ _ _ _ hr).trans (List.sublist_cons_self _ _)

theorem expire_sublist {self : idleMgr} {closer : Closer} {now : Time} {h h1 : Heap}
    {m1 : idleMgr} (he : self.expire closer now h = some (h1, m1)) :
    m1.idleList.Sublist self.idleList ∧ m1.maxTTL = self.maxTTL := by
  unfold idleMgr.expire at he
  split at he
  · cases he
  · rename_i h2 back2 map2 hl
    cases he
    refine ⟨?_, rfl⟩
    have := (expireLoop_sublist closer now _ _ _ _ _ _ hl).reverse
    simpa using this

theorem Fresh_sublist {m m1 : idleMgr} {t t1 : Time} (hf : m.Fresh t)
    (hs : m1.idleList.Sublist m.idleList) (httl : m1.maxTTL = m.maxTTL) (ht : t ≤ t1) :
    m1.Fresh t1 := by
  refine ⟨List.Pairwise.sublist hs hf.1, ?_⟩
  intro e he
  have := hf.2 e (hs.subset he)
  rw [httl]
  exact le_trans this (add_le_add_right ht _)

theorem Fresh_idleAppDB {m : idleMgr} {t : Time} (hf : m.Fresh t) (now : Time)
    (pools : Nat → DB) (db : Nat) (ht : t ≤ now) : (m.idleAppDB now pools db).Fresh now := by
  cases hq : m.idleMap (pools db).AppID with
  | some e =>
    rw [idleAppDB_present now hq]
    exact Fresh_sublist hf (List.Sublist.refl _) rfl ht
  | none =>
    rw [idleAppDB_absent now hq]
    refine ⟨?_, ?_⟩
    · unfold idleMgr.Ordered
      refine List.pairwise_cons.mpr ⟨?_, hf.1⟩
      intro b hb
      have := hf.2 b hb
      show b.Value.expireAt ≤ now + m.maxTTL
      exact le_trans this (add_le_add_right ht _)
    · intro e he
      simp only [List.mem_cons] at he
      rcases he with rfl | he
      · exact le_refl _
      · have := hf.2 e he
        show e.Value.expireAt ≤ now + m.maxTTL
        exact le_trans this (add_le_add_right ht _)

theorem Fresh_AppDB {m : idleMgr} {t : Time} (hf : m.Fresh t) (appID : String) :
    (m.AppDB appID).1.Fresh t := by
  cases hq : m.idleMap appID with
  | none =>
    rw [AppDB_absent hq]
    exact hf
  | some e =>
    rw [AppDB_present hq]
    exact Fresh_sublist hf (List.filter_sublist _) rfl (le_refl _)

theorem Fresh_IdleRun {s : Heap × idleMgr} {t : Time} (hr : IdleRun s t) : s.2.Fresh t := by
  induction hr with
  | empty h m t hl _ =>
    refine ⟨?_, ?_⟩
    · unfold idleMgr.Ordered
      rw [hl]
      exact List.Pairwise.nil
    · intro e he
      rw [hl] at he
      cases he
  | heap h1 _ ih => exact ih
  | idleAppDB now db _ ht ih => exact Fresh_idleAppDB ih now _ db ht
  | AppDB appID _ ih => exact Fresh_AppDB ih appID
  | expire closer now h1 m1 _ ht he ih =>
    obtain ⟨hs, httl⟩ := expire_sublist he
    exact Fresh_sublist ih hs httl ht

theorem Ordered_back_oldest (l : List Element)
    (ho : l.Pairwise (fun a b => b.Value.expireAt ≤ a.Value.expireAt)) (last : Element)
    (hl : l.getLast? = some last) : ∀ e ∈ l, last.Value.expireAt ≤ e.Value.expireAt := by
  induction l with
  | nil => cases hl
  | cons a l ih =>
    obtain ⟨hall, hrest⟩ := List.pairwise_cons.mp ho
    intro e he
    cases l with
    | nil =>
      simp at hl he
      subst hl
      subst he
      exact le_refl _
    | cons b l =>
      have hl1 : (b :: l).getLast? = some last := by
        simpa [List.getLast?_cons_cons] using hl
      have hmem : last ∈ b :: l := List.mem_of_getLast?_eq_some hl1
      rcases List.mem_cons.mp he with rfl | he1
      · exact hall last hmem
      · exact ih hrest hl1 e he1

/-- C13: starting from an empty registry, after any sequence of idleAppDB, AppDB
and expire calls whose clock readings never decrease (no step changes maxTTL),
idleList is ordered by expireAt from freshest at the front to oldest at the back,
so the back element expires no later than any other entry. -/
theorem idleList_ordered (s : Heap × idleMgr) (t : Time) (hr : IdleRun s t) :
    s.2.Ordered ∧
    (∀ last, s.2.idleList.getLast? = some last →
      ∀ e ∈ s.2.idleList, last.Value.expireAt ≤ e.Value.expireAt) := by
  have hf := Fresh_IdleRun hr
  exact ⟨hf.1, fun last hl => Ordered_back_oldest _ hf.1 last hl⟩

/-- Witness of C13: the pools of "demoa" and "demob" went idle at times 0 and 500. -/
theorem idleList_ordered_witness :
    IdleRun (demoHeap, staleRegistry) 500 ∧ staleRegistry.Ordered :=
  ⟨IdleRun.idleAppDB 500 1
      (IdleRun.idleAppDB 0 0 (IdleRun.empty demoHeap newIdleMgr 0 rfl (fun _ => rfl))
        (le_refl _)) (by decide),
    (idleList_ordered (demoHeap, staleRegistry) 500
      (IdleRun.idleAppDB 500 1
        (IdleRun.idleAppDB 0 0 (IdleRun.empty demoHeap newIdleMgr 0 rfl (fun _ => rfl))
          (le_refl _)) (by decide))).1⟩

/-! ## The sleep between two sweeps -/

/-- C14 fails on the code as stated: with expJitter = 10^10 (a positive int) and
the draw 9223372037, which is below expJitter, the product with time.Second
exceeds 2^63 - 1 and wraps around; sleepTime returns a negative duration, below
expInterval. -/
theorem sleepTime_wraps :
    0 < wideJitter.expJitter ∧
    randIntn wideJitter.expJitter 9223372037 = some 9223372037 ∧
    wideJitter.expInterval = 45 * Second ∧
    wideJitter.sleepTime 9223372037 = some (-9223371991709551616) ∧
    ¬ (wideJitter.expInterval ≤ (-9223371991709551616 : Int)) := by
  decide

theorem sleepTime_arith (I J j : Int) (h0 : 0 ≤ j) (h1 : j < J) (hlo : -2 ^ 63 ≤ I)
    (hfit : I + (J - 1) * Second ≤ 2 ^ 63 - 1) :
    wrapInt64 (I + j * Second) = I + j * Second ∧ I ≤ I + j * Second ∧
      I + j * Second < I + J * Second := by
  unfold Second at *
  refine ⟨wrapInt64_of_fits (by omega) (by omega), by omega, by omega⟩

/-- C14 as amended: for every idleMgr with expJitter > 0 whose largest sleep time,
expInterval plus expJitter - 1 seconds, fits in a 64-bit duration, and every
random draw, sleepTime returns expInterval plus a whole number of seconds j with
0 ≤ j < expJitter, so expInterval ≤ sleepTime() < expInterval + expJitter seconds.
With the defaults, 45s and 30, every draw gives at least 45s and less than
1m15s. -/
theorem sleepTime_bounds (self : idleMgr) (rnd : Nat)
    (hj : 0 < self.expJitter) (hlo : -2 ^ 63 ≤ self.expInterval)
    (hfit : self.expInterval + (self.expJitter - 1) * Second ≤ 2 ^ 63 - 1) :
    (∃ j : Int, 0 ≤ j ∧ j < self.expJitter ∧
      self.sleepTime rnd = some (self.expInterval + j * Second) ∧
      self.expInterval ≤ self.expInterval + j * Second ∧
      self.expInterval + j * Second < self.expInterval + self.expJitter * Second) ∧
    (∀ draw : Nat, ∃ d, newIdleMgr.sleepTime draw = some d ∧
      45 * Second ≤ d ∧ d < 75 * Second) := by
  have key : ∀ (m : idleMgr) (r : Nat), 0 < m.expJitter → -2 ^ 63 ≤ m.expInterval →
      m.expInterval + (m.expJitter - 1) * Second ≤ 2 ^ 63 - 1 →
      ∃ j : Int, 0 ≤ j ∧ j < m.expJitter ∧
        m.sleepTime r = some (m.expInterval + j * Second) ∧
        m.expInterval ≤ m.expInterval + j * Second ∧
        m.expInterval + j * Second < m.expInterval + m.expJitter * Second := by
    intro m r h1 h2 h3
    have hne : m.expJitter ≠ 0 := ne_of_gt h1
    have hj0 : 0 ≤ (r : Int) % m.expJitter := Int.emod_nonneg _ hne
    have hj1 : (r : Int) % m.expJitter < m.expJitter := Int.emod_lt_of_pos _ h1
    obtain ⟨a1, a2, a3⟩ := sleepTime_arith m.expInterval m.expJitter _ hj0 hj1 h2 h3
    refine ⟨(r : Int) % m.expJitter, hj0, hj1, ?_, a2, a3⟩
    have hnot : ¬ m.expJitter ≤ 0 := not_le.mpr h1
    simp only [idleMgr.sleepTime, randIntn, hnot, if_false]
    rw [wrapInt64_add_wrapInt64, a1]
  refine ⟨key self rnd hj hlo hfit, ?_⟩
  intro draw
  obtain ⟨j, -, -, hs, a2, a3⟩ := key newIdleMgr draw (by decide) (by decide) (by decide)
  exact ⟨_, hs, a2, a3⟩

/-- Witness of C14 as amended: the default registry and the draw 44. -/
theorem sleepTime_bounds_witness :
    0 < newIdleMgr.expJitter ∧ -2 ^ 63 ≤ newIdleMgr.expInterval ∧
    newIdleMgr.expInterval + (newIdleMgr.expJitter - 1) * Second ≤ 2 ^ 63 - 1 ∧
    ∃ j : Int, 0 ≤ j ∧ j < newIdleMgr.expJitter ∧
      newIdleMgr.sleepTime 44 = some (newIdleMgr.expInterval + j * Second) ∧
      newIdleMgr.expInterval ≤ newIdleMgr.expInterval + j * Second ∧
      newIdleMgr.expInterval + j * Second <
        newIdleMgr.expInterval + newIdleMgr.expJitter * Second :=
  ⟨by decide, by decide, by decide,
    (sleepTime_bounds newIdleMgr 44 (by decide) (by decide) (by decide)).1⟩

/-! ## Manager: concurrent first calls -/

/-- C5 fails on the code: two goroutines call DB("demoa") on the new manager and
both miss the fast path. When the second one reaches `sg.Do` while the first is
in flight, newDB is called once and both get pool 0 with useCnt = 2. When the
first one has finished its flight (and returned) before the second one reaches
`sg.Do`, the second starts a flight of its own: newDB is called twice, the callers
get the pools 0 and 1 with useCnt = 1 each, and appDB keeps pool 1 only. -/
theorem DB_flights_not_coalesced :
    ((twoCallers.run openAll [0, 1, 0, 1, 0, 0, 1]).callers = [.returned 0, .returned 0] ∧
      (twoCallers.run openAll [0, 1, 0, 1, 0, 0, 1]).heap.newDBCalls = ["demoa"] ∧
      ((twoCallers.run openAll [0, 1, 0, 1, 0, 0, 1]).heap.pools 0).useCnt = 2) ∧
    ((twoCallers.run openAll [0, 1, 0, 0, 0, 1, 1, 1]).callers = [.returned 0, .returned 1] ∧
      (twoCallers.run openAll [0, 1, 0, 0, 0, 1, 1, 1]).heap.newDBCalls = ["demoa", "demoa"] ∧
      ((twoCallers.run openAll [0, 1, 0, 0, 0, 1, 1, 1]).heap.pools 0).useCnt = 1 ∧
      ((twoCallers.run openAll [0, 1, 0, 0, 0, 1, 1, 1]).heap.pools 1).useCnt = 1 ∧
      (twoCallers.run openAll [0, 1, 0, 0, 0, 1, 1, 1]).mgr.appDB "demoa" = some 1) := by
  decide

end db
